import Mathlib

/-!
Verification development for the fuzzymax chess engine core
(src/position.cc and src/fuzzymax.cc).

The board model is embedded shallowly: the 12 C++ uint64_t piece planes
become a list of 12 natural numbers (every value the program ever stores
in a plane fits in 64 bits, and all bit positions handled by the code are
below 64, so Nat bit operations agree with the uint64_t ones on every
reachable value); C++ int fields that can be negative (side, promotion,
rank/file deltas) become Int.  Doubles used by the search are modelled as
rationals, with the transcendental functions (exp, log, sqrt) passed in as
arbitrary rational functions, and the IEEE infinities that the search uses
as sentinels modelled by an explicit three-case value type.
-/

-- ---------------------------------------------------------------------------
-- Bit utilities
-- ---------------------------------------------------------------------------

/-- Number of set bits among bits 0..63, as computed by builtin popcountll on
a 64-bit value. -/
def popcount (bb : Nat) : Nat :=
  (List.range 64).countP (fun i => bb.testBit i)

/-- Index of the least significant set bit of a 64-bit value, as computed by
builtin ctzll.  Returns 64 when no bit among 0..63 is set (the C++ callers
never invoke ctz on zero). -/
def ctz (bb : Nat) : Nat :=
  (List.range 64).findIdx (fun i => bb.testBit i)

/-- The list of set-bit indices of a 64-bit value in increasing order.  This
is the sequence produced by the C++ idiom
while (bb) with sq = ctzll(bb) and bb &= bb - 1. -/
def bitIndices (bb : Nat) : List Nat :=
  (List.range 64).filter (fun i => bb.testBit i)

/-- bb with bit sq cleared: the C++ expression bb & ~(1ULL << sq),
written without a complement so that it is total on Nat. -/
def clearBit (bb sq : Nat) : Nat :=
  bb ^^^ (bb &&& (1 <<< sq))

/-- bb with bit sq set: the C++ expression bb | (1ULL << sq). -/
def setBit (bb sq : Nat) : Nat :=
  bb ||| (1 <<< sq)

-- ---------------------------------------------------------------------------
-- Data model: Move and Position (engine.h / position.cc)
-- ---------------------------------------------------------------------------

/-- A move: origin and destination squares (0 = a1 ... 63 = h8) and an
optional promotion tag, -1 when absent (1 = knight, 2 = bishop, 3 = rook,
4 = queen). -/
structure Move where
  from' : Nat
  to' : Nat
  promotion : Int := -1
deriving DecidableEq, Repr

/-- The board state: 12 piece planes in the order
white P N B R Q K, black p n b r q k, the three occupancy aggregates and
the side to move (0 = white, 1 = black). -/
structure Position where
  pieces : List Nat
  wOcc : Nat
  bOcc : Nat
  allOcc : Nat
  side : Int
deriving DecidableEq, Repr

/-- White occupancy: union of planes 0..5. -/
def wOccOf (pcs : List Nat) : Nat :=
  pcs.getD 0 0 ||| pcs.getD 1 0 ||| pcs.getD 2 0 ||| pcs.getD 3 0 |||
    pcs.getD 4 0 ||| pcs.getD 5 0

/-- Black occupancy: union of planes 6..11. -/
def bOccOf (pcs : List Nat) : Nat :=
  pcs.getD 6 0 ||| pcs.getD 7 0 ||| pcs.getD 8 0 ||| pcs.getD 9 0 |||
    pcs.getD 10 0 ||| pcs.getD 11 0

/-- The planes of the standard start position (Position::Position()). -/
def startPieces : List Nat :=
  [0x000000000000FF00, 0x0000000000000042, 0x0000000000000024,
   0x0000000000000081, 0x0000000000000008, 0x0000000000000010,
   0x00FF000000000000, 0x4200000000000000, 0x2400000000000000,
   0x8100000000000000, 0x0800000000000000, 0x1000000000000000]

/-- The standard start position, as built by the default constructor and
returned by Position::create_start_position(). -/
def Position.create_start_position : Position :=
  { pieces := startPieces
    wOcc := wOccOf startPieces
    bOcc := bOccOf startPieces
    allOcc := wOccOf startPieces ||| bOccOf startPieces
    side := 0 }

-- ---------------------------------------------------------------------------
-- Check detection (Position::is_in_check)
-- ---------------------------------------------------------------------------

/-- Knight move offsets, in the order of the C++ table. -/
def knightDeltas : List (Int × Int) :=
  [(2, 1), (1, 2), (-1, 2), (-2, 1), (-2, -1), (-1, -2), (1, -2), (2, -1)]

/-- King-adjacency offsets in the order the C++ double loop visits them
(dr = -1..1 outer, df = -1..1 inner, skipping (0,0)). -/
def kingAdjDeltas : List (Int × Int) :=
  [(-1, -1), (-1, 0), (-1, 1), (0, -1), (0, 1), (1, -1), (1, 0), (1, 1)]

def diagDirs : List (Int × Int) := [(1, 1), (1, -1), (-1, 1), (-1, -1)]

def straightDirs : List (Int × Int) := [(1, 0), (-1, 0), (0, 1), (0, -1)]

/-- Walk one ray from (r, f) in direction (dr, df): true when the first
occupied square hit holds an attacker (a ray is at most 7 squares long, so
fuel 8 is enough; attackers is the union of the two relevant enemy slider
planes, occ the all-occupancy). -/
def rayCheck (attackers occ : Nat) (dr df : Int) : Int → Int → Nat → Bool
  | _, _, 0 => false
  | r, f, fuel + 1 =>
    let r2 := r + dr
    let f2 := f + df
    if r2 < 0 || 8 ≤ r2 || f2 < 0 || 8 ≤ f2 then false
    else
      let sq := (r2 * 8 + f2).toNat
      if attackers.testBit sq then true
      else if occ.testBit sq then false
      else rayCheck attackers occ dr df r2 f2 fuel

/-- Position::is_in_check(): whether the king of the side to move is
attacked.  Note the king index is chosen from the current side field. -/
def Position.is_in_check (p : Position) : Bool :=
  let kingIndex : Nat := if p.side = 0 then 5 else 11
  let kp := p.pieces.getD kingIndex 0
  if kp = 0 then false
  else
    let ks := ctz kp
    let kr : Int := (ks / 8 : Nat)
    let kf : Int := (ks % 8 : Nat)
    let pawnAtt : Bool :=
      if p.side = 0 then
        decide (kr + 1 < 8) &&
          ((decide (kf + 1 < 8) &&
              (p.pieces.getD 6 0).testBit (((kr + 1) * 8 + (kf + 1)).toNat)) ||
           (decide (0 ≤ kf - 1) &&
              (p.pieces.getD 6 0).testBit (((kr + 1) * 8 + (kf - 1)).toNat)))
      else
        decide (0 ≤ kr - 1) &&
          ((decide (kf + 1 < 8) &&
              (p.pieces.getD 0 0).testBit (((kr - 1) * 8 + (kf + 1)).toNat)) ||
           (decide (0 ≤ kf - 1) &&
              (p.pieces.getD 0 0).testBit (((kr - 1) * 8 + (kf - 1)).toNat)))
    let knightPlane := if p.side = 0 then p.pieces.getD 7 0 else p.pieces.getD 1 0
    let knightAtt : Bool :=
      knightDeltas.any fun d =>
        let r := kr + d.1
        let f := kf + d.2
        decide (0 ≤ r) && decide (r < 8) && decide (0 ≤ f) && decide (f < 8) &&
          knightPlane.testBit ((r * 8 + f).toNat)
    let enemyKingPlane := if p.side = 0 then p.pieces.getD 11 0 else p.pieces.getD 5 0
    let kingAtt : Bool :=
      kingAdjDeltas.any fun d =>
        let r := kr + d.1
        let f := kf + d.2
        decide (0 ≤ r) && decide (r < 8) && decide (0 ≤ f) && decide (f < 8) &&
          enemyKingPlane.testBit ((r * 8 + f).toNat)
    let diagAttackers :=
      if p.side = 0 then p.pieces.getD 8 0 ||| p.pieces.getD 10 0
      else p.pieces.getD 2 0 ||| p.pieces.getD 4 0
    let diagAtt : Bool :=
      diagDirs.any fun d => rayCheck diagAttackers p.allOcc d.1 d.2 kr kf 8
    let straightAttackers :=
      if p.side = 0 then p.pieces.getD 9 0 ||| p.pieces.getD 10 0
      else p.pieces.getD 3 0 ||| p.pieces.getD 4 0
    let straightAtt : Bool :=
      straightDirs.any fun d => rayCheck straightAttackers p.allOcc d.1 d.2 kr kf 8
    pawnAtt || knightAtt || kingAtt || diagAtt || straightAtt

-- ---------------------------------------------------------------------------
-- Applying a move (Position::makeMove)
-- ---------------------------------------------------------------------------

/-- Position::makeMove: resolve the moving piece by scanning the mover's six
planes for a bit at from; if none is found return the position unchanged
(the side is NOT flipped in that branch).  Otherwise clear the bit at from,
clear the first enemy plane bit at to (capture), set the destination bit on
the mover's plane or, for a promotion, on the promoted piece's plane,
recompute the occupancy aggregates and flip the side. -/
def Position.makeMove (p : Position) (m : Move) : Position :=
  let offset : Nat := if p.side = 0 then 0 else 6
  let enemyOffset : Nat := if p.side = 0 then 6 else 0
  match (List.range 6).find? (fun i => (p.pieces.getD (offset + i) 0).testBit m.from') with
  | none => p
  | some i =>
    let mpi := offset + i
    let pcs1 := p.pieces.set mpi (clearBit (p.pieces.getD mpi 0) m.from')
    let pcs2 :=
      match (List.range 6).find? (fun j => (pcs1.getD (enemyOffset + j) 0).testBit m.to') with
      | none => pcs1
      | some j =>
        pcs1.set (enemyOffset + j) (clearBit (pcs1.getD (enemyOffset + j) 0) m.to')
    let target : Nat :=
      if m.promotion ≠ -1 then
        if p.side = 0 then
          match m.promotion with
          | 1 => 1
          | 2 => 2
          | 3 => 3
          | 4 => 4
          | _ => 4
        else
          match m.promotion with
          | 1 => 7
          | 2 => 8
          | 3 => 9
          | 4 => 10
          | _ => 10
      else mpi
    let pcs3 := pcs2.set target (setBit (pcs2.getD target 0) m.to')
    let w := wOccOf pcs3
    let b := bOccOf pcs3
    { pieces := pcs3, wOcc := w, bOcc := b, allOcc := w ||| b, side := 1 - p.side }

-- ---------------------------------------------------------------------------
-- Pseudo-legal move generation (Position::generate*Moves)
-- ---------------------------------------------------------------------------

def bishopDir : List (Int × Int) := [(1, 1), (1, -1), (-1, 1), (-1, -1)]

def rookDir : List (Int × Int) := [(1, 0), (-1, 0), (0, 1), (0, -1)]

def queenDir : List (Int × Int) :=
  [(1, 1), (1, -1), (-1, 1), (-1, -1), (1, 0), (-1, 0), (0, 1), (0, -1)]

/-- Walk one sliding ray collecting destination squares: stop before a
friendly square, include a capture square and stop, include every empty
square passed over.  Fuel 8 covers the at most 7 squares of a ray. -/
def slideWalk (friendly enemy : Nat) (fro : Nat) (dr df : Int) :
    Int → Int → Nat → List Move
  | _, _, 0 => []
  | r, f, fuel + 1 =>
    let r2 := r + dr
    let f2 := f + df
    if r2 < 0 || 8 ≤ r2 || f2 < 0 || 8 ≤ f2 then []
    else
      let dest := (r2 * 8 + f2).toNat
      if friendly.testBit dest then []
      else if enemy.testBit dest then [⟨fro, dest, -1⟩]
      else ⟨fro, dest, -1⟩ :: slideWalk friendly enemy fro dr df r2 f2 fuel

/-- Position::generateSlidingMoves for the given piece type (2 bishop,
3 rook, 4 queen) over the given direction table. -/
def Position.generateSlidingMoves (p : Position) (pieceType : Nat)
    (dirs : List (Int × Int)) : List Move :=
  let offset : Nat := if p.side = 0 then 0 else 6
  let friendly := if p.side = 0 then p.wOcc else p.bOcc
  let enemy := if p.side = 0 then p.bOcc else p.wOcc
  (bitIndices (p.pieces.getD (offset + pieceType) 0)).flatMap fun fro =>
    dirs.flatMap fun d =>
      slideWalk friendly enemy fro d.1 d.2 ((fro / 8 : Nat) : Int) ((fro % 8 : Nat) : Int) 8

/-- Position::generateKnightMoves. -/
def Position.generateKnightMoves (p : Position) : List Move :=
  let offset : Nat := if p.side = 0 then 0 else 6
  let friendly := if p.side = 0 then p.wOcc else p.bOcc
  (bitIndices (p.pieces.getD (offset + 1) 0)).flatMap fun fro =>
    knightDeltas.flatMap fun d =>
      let r := ((fro / 8 : Nat) : Int) + d.1
      let f := ((fro % 8 : Nat) : Int) + d.2
      if r < 0 || 8 ≤ r || f < 0 || 8 ≤ f then []
      else
        let dest := (r * 8 + f).toNat
        if friendly.testBit dest then [] else [⟨fro, dest, -1⟩]

/-- King move offsets in the order of the C++ table. -/
def kingDeltas : List (Int × Int) :=
  [(1, 0), (1, 1), (0, 1), (-1, 1), (-1, 0), (-1, -1), (0, -1), (1, -1)]

/-- Position::generateKingMoves: the generator takes only the lowest set
bit of the king plane. -/
def Position.generateKingMoves (p : Position) : List Move :=
  let offset : Nat := if p.side = 0 then 0 else 6
  let friendly := if p.side = 0 then p.wOcc else p.bOcc
  let king := p.pieces.getD (offset + 5) 0
  if king = 0 then []
  else
    let fro := ctz king
    kingDeltas.flatMap fun d =>
      let r := ((fro / 8 : Nat) : Int) + d.1
      let f := ((fro % 8 : Nat) : Int) + d.2
      if r < 0 || 8 ≤ r || f < 0 || 8 ≤ f then []
      else
        let dest := (r * 8 + f).toNat
        if friendly.testBit dest then [] else [⟨fro, dest, -1⟩]

/-- Position::generatePawnMoves: single forward push to an empty square,
diagonal captures, promotions enumerated as four separate moves.  No
double-step, no en passant. -/
def Position.generatePawnMoves (p : Position) : List Move :=
  let offset : Nat := if p.side = 0 then 0 else 6
  let enemy := if p.side = 0 then p.bOcc else p.wOcc
  (bitIndices (p.pieces.getD (offset + 0) 0)).flatMap fun fro =>
    let r := ((fro / 8 : Nat) : Int)
    let f := ((fro % 8 : Nat) : Int)
    let nr := if p.side = 0 then r + 1 else r - 1
    if nr < 0 || 8 ≤ nr then []
    else
      let isPromotion := (p.side = 0 ∧ nr = 7) ∨ (p.side ≠ 0 ∧ nr = 0)
      let dest := (nr * 8 + f).toNat
      let fwd : List Move :=
        if p.allOcc.testBit dest then []
        else if isPromotion then
          [⟨fro, dest, 1⟩, ⟨fro, dest, 2⟩, ⟨fro, dest, 3⟩, ⟨fro, dest, 4⟩]
        else [⟨fro, dest, -1⟩]
      let capL : List Move :=
        if 0 ≤ f - 1 then
          let cap := (nr * 8 + (f - 1)).toNat
          if enemy.testBit cap then
            if isPromotion then
              [⟨fro, cap, 1⟩, ⟨fro, cap, 2⟩, ⟨fro, cap, 3⟩, ⟨fro, cap, 4⟩]
            else [⟨fro, cap, -1⟩]
          else []
        else []
      let capR : List Move :=
        if f + 1 < 8 then
          let cap := (nr * 8 + (f + 1)).toNat
          if enemy.testBit cap then
            if isPromotion then
              [⟨fro, cap, 1⟩, ⟨fro, cap, 2⟩, ⟨fro, cap, 3⟩, ⟨fro, cap, 4⟩]
            else [⟨fro, cap, -1⟩]
          else []
        else []
      fwd ++ capL ++ capR

/-- The concatenation of all pseudo-legal moves in generation order. -/
def Position.pseudoMoves (p : Position) : List Move :=
  p.generateSlidingMoves 2 bishopDir ++ p.generateSlidingMoves 3 rookDir ++
    p.generateSlidingMoves 4 queenDir ++ p.generateKnightMoves ++
    p.generateKingMoves ++ p.generatePawnMoves

/-- Position::genMoves: pseudo-legal moves filtered by applying each move
and keeping it only when is_in_check() on the resulting position (whose
side field has already flipped) returns false. -/
def Position.genMoves (p : Position) : List Move :=
  p.pseudoMoves.filter fun m => !(p.makeMove m).is_in_check

/-- Position::is_checkmate. -/
def Position.is_checkmate (p : Position) : Bool :=
  p.is_in_check && p.genMoves.isEmpty

/-- Position::is_stalemate. -/
def Position.is_stalemate (p : Position) : Bool :=
  !p.is_in_check && p.genMoves.isEmpty

-- ---------------------------------------------------------------------------
-- FEN parsing (Position::fromFEN)
-- ---------------------------------------------------------------------------

/-- Default-locale whitespace, as skipped by istringstream extraction. -/
def isWS (c : Char) : Bool :=
  c = ' ' || c = '\t' || c = '\n' || c = '\x0b' || c = '\x0c' || c = '\r'

/-- Whitespace-separated tokens of a string, in order (the successive
istringstream string extractions; a missing field extracts nothing and the
corresponding variable keeps its empty default). -/
def tokenizeAux : List Char → List Char → List String
  | [], acc => if acc.isEmpty then [] else [String.mk acc.reverse]
  | c :: cs, acc =>
    if isWS c then
      if acc.isEmpty then tokenizeAux cs []
      else String.mk acc.reverse :: tokenizeAux cs []
    else tokenizeAux cs (c :: acc)

def tokenize (s : String) : List String := tokenizeAux s.toList []

/-- The piece-placement loop of Position::fromFEN: a slash moves to the next
lower rank, a digit skips files, a recognized piece letter sets its plane
bit, anything else is skipped (file still advances).  The C++ square index
rank*8+file is an int; on malformed input it can leave 0..63, which is
undefined behaviour for the C++ shift, modelled here by toNat. -/
def fenPlacement : List Char → Int → Int → List Nat → List Nat
  | [], _, _, pcs => pcs
  | c :: cs, rank, file, pcs =>
    if c = '/' then fenPlacement cs (rank - 1) 0 pcs
    else if c.isDigit then fenPlacement cs rank (file + ((c.toNat : Int) - 48)) pcs
    else
      let square := rank * 8 + file
      let index : Int :=
        if c = 'P' then 0 else if c = 'N' then 1 else if c = 'B' then 2
        else if c = 'R' then 3 else if c = 'Q' then 4 else if c = 'K' then 5
        else if c = 'p' then 6 else if c = 'n' then 7 else if c = 'b' then 8
        else if c = 'r' then 9 else if c = 'q' then 10 else if c = 'k' then 11
        else -1
      let pcs2 :=
        if index ≠ -1 then
          pcs.set index.toNat (setBit (pcs.getD index.toNat 0) square.toNat)
        else pcs
      fenPlacement cs rank (file + 1) pcs2

/-- Position::fromFEN.  The castling, en-passant, halfmove and fullmove
fields are extracted but never used; side is 0 exactly when the
active-color token is the string w. -/
def Position.fromFEN (fen : String) : Position :=
  let tokens := tokenize fen
  let placement := tokens.getD 0 ""
  let activeColor := tokens.getD 1 ""
  let pcs := fenPlacement placement.toList 7 0 (List.replicate 12 0)
  let w := wOccOf pcs
  let b := bOccOf pcs
  { pieces := pcs, wOcc := w, bOcc := b, allOcc := w ||| b,
    side := if activeColor = "w" then 0 else 1 }

-- ---------------------------------------------------------------------------
-- Static evaluation (fuzzymax.cc evaluate)
-- ---------------------------------------------------------------------------

def pieceValues : List Int :=
  [100, 320, 330, 500, 900, 20000, -100, -320, -330, -500, -900, -20000]

/-- Material-only evaluation in centipawns from the side to move's
perspective. -/
def evaluate (p : Position) : Int :=
  let scoreWhiteMinusBlack :=
    (List.range 12).foldl
      (fun acc i => acc + pieceValues.getD i 0 * (popcount (p.pieces.getD i 0) : Int)) 0
  if p.side = 0 then scoreWhiteMinusBlack else -scoreWhiteMinusBlack

-- ---------------------------------------------------------------------------
-- Softmax tree search (fuzzymax.cc SMTS)
-- ---------------------------------------------------------------------------

/-!
The doubles of the search are modelled as rationals; exp and log (and for
MABS sqrt) are taken as arbitrary parameters vexp, vlog, vsqrt, so every
theorem below holds for every interpretation of those functions.  The
process-wide atomic stop flag is monotonic during one search; it is
modelled as a Bool parameter giving its (constant) value, which covers the
claims, all of which are about a search with the flag unset.  The
mt19937 generator is modelled as a stream of rationals (one entry
consumed per uniform draw); the value drawn by
uniform_real_distribution(0, total) is modelled as the next stream entry
itself, an arbitrary rational, which covers every realizable draw.
-/

/-- The first maximal element of a nonempty list (the value of the C++
max_element call); 0 as a junk value on the empty list, which the caller
rules out. -/
def maxList : List ℚ → ℚ
  | [] => 0
  | x :: xs => xs.foldl max x

/-- The sampling scan of SMTS: accumulate weights until the running sum
first reaches r. -/
def chooseIndexAux (r : ℚ) : List ℚ → ℚ → Nat → Option Nat
  | [], _, _ => none
  | w :: ws, accum, i =>
    if r ≤ accum + w then some i else chooseIndexAux r ws (accum + w) (i + 1)

/-- chosen_index of SMTS: initialized to 0, set by the first prefix sum
reaching r. -/
def chooseIndex (ws : List ℚ) (r : ℚ) : Nat :=
  (chooseIndexAux r ws 0 0).getD 0

/-- The child loop of SMTS: apply each move, recurse, negate, collect the
value and PV lists, threading the random stream; when the stop flag is set
the loop breaks after storing the current child. -/
def smtsChildren (recurse : Position → (Nat → ℚ) → ℚ × List Move × (Nat → ℚ))
    (stop : Bool) (pos : Position) :
    List Move → (Nat → ℚ) → List ℚ × List (List Move) × (Nat → ℚ)
  | [], rng => ([], [], rng)
  | mv :: rest, rng =>
    let child := pos.makeMove mv
    let res := recurse child rng
    let val := -res.1
    if stop then ([val], [res.2.1], res.2.2)
    else
      let tail := smtsChildren recurse stop pos rest res.2.2
      (val :: tail.1, res.2.1 :: tail.2.1, tail.2.2)

/-- SMTS: returns (value, principal variation, remaining random stream).
At depth 0 (or with the stop flag set, or with no legal move) it returns
the static evaluation with an empty PV; otherwise it recurses on every
legal move, samples one child with probability proportional to
exp(beta*(value - max)) and returns the log-partition value. -/
def SMTS (vexp vlog : ℚ → ℚ) (stop : Bool) :
    Nat → Position → (Nat → ℚ) → ℚ × List Move × (Nat → ℚ)
  | 0, pos, rng => (((evaluate pos : ℤ) : ℚ), [], rng)
  | depth + 1, pos, rng =>
    if stop then (((evaluate pos : ℤ) : ℚ), [], rng)
    else
      let moves := pos.genMoves
      if moves.isEmpty then (((evaluate pos : ℤ) : ℚ), [], rng)
      else
        let beta : ℚ := 1
        let res := smtsChildren (SMTS vexp vlog stop depth) stop pos moves rng
        let childVals := res.1
        let childPVs := res.2.1
        let rng1 := res.2.2
        if childVals.isEmpty then (((evaluate pos : ℤ) : ℚ), [], rng1)
        else
          let maxVal := maxList childVals
          let weights := childVals.map fun v => vexp (beta * (v - maxVal))
          let totalWeight := weights.foldl (· + ·) 0
          let r := rng1 0
          let rng2 : Nat → ℚ := fun n => rng1 (n + 1)
          let chosen := chooseIndex weights r
          let pv := moves.getD chosen ⟨0, 0, -1⟩ :: childPVs.getD chosen []
          ((1 / beta) * vlog totalWeight + maxVal, pv, rng2)

-- ---------------------------------------------------------------------------
-- Multi-armed bandit search (fuzzymax.cc MABS)
-- ---------------------------------------------------------------------------

/-- The doubles -inf and +inf used by MABS as sentinels, alongside finite
values; comparison below is the IEEE greater-than restricted to these
cases. -/
inductive XVal where
  | negInf
  | posInf
  | fin (q : ℚ)
deriving DecidableEq, Repr

/-- IEEE greater-than on the modelled doubles (inf > inf is false). -/
def gtX : XVal → XVal → Bool
  | XVal.posInf, XVal.posInf => false
  | XVal.posInf, _ => true
  | XVal.fin _, XVal.posInf => false
  | XVal.fin a, XVal.fin b => decide (b < a)
  | XVal.fin _, XVal.negInf => true
  | XVal.negInf, _ => false

/-- The per-arm statistics of MABS. -/
structure MabsState where
  plays : List Nat
  totalReward : List ℚ
  bestReward : List XVal
  bestPV : List (List Move)
deriving Repr

/-- The fresh statistics: no plays, zero cumulative reward, best reward
-inf, empty best PV, for each of the n arms. -/
def mabsInit (n : Nat) : MabsState :=
  ⟨List.replicate n 0, List.replicate n 0, List.replicate n XVal.negInf,
    List.replicate n []⟩

/-- The UCB1 score of arm i at the given iteration: +inf for an unplayed
arm, otherwise average reward plus sqrt(2 ln(iter) / plays). -/
def ucbOf (vsqrt vlog : ℚ → ℚ) (st : MabsState) (iter : Nat) (i : Nat) : XVal :=
  if st.plays.getD i 0 = 0 then XVal.posInf
  else
    XVal.fin (st.totalReward.getD i 0 / (st.plays.getD i 0 : ℚ) +
      vsqrt (2 * vlog (iter : ℚ) / (st.plays.getD i 0 : ℚ)))

/-- The strict-greater selection fold shared by arm selection (selected
initialized to -1) and final arm choice (bestArm initialized to 0); the
running best value starts at -inf. -/
def argmaxFold (f : Nat → XVal) (init : Int) (l : List Nat) : Int × XVal :=
  l.foldl (fun acc i => if gtX (f i) acc.2 then ((i : Int), f i) else acc)
    (init, XVal.negInf)

/-- One iteration of MABS: select the arm with the best UCB1 score (none
when no arm was selected, the loop's break), play it, and update its
statistics; the best-seen child PV is replaced when the arm was just
played for the first time or the new reward beats the recorded best. -/
def mabsIterate (vsqrt vlog : ℚ → ℚ) (recurse : Position → ℚ × List Move)
    (pos : Position) (moves : List Move) (iter : Nat) (st : MabsState) :
    Option MabsState :=
  let n := moves.length
  let sel := (argmaxFold (ucbOf vsqrt vlog st iter) (-1) (List.range n)).1
  if sel < 0 then none
  else
    let s := sel.toNat
    let child := pos.makeMove (moves.getD s ⟨0, 0, -1⟩)
    let res := recurse child
    let reward := -res.1
    let plays2 := st.plays.set s (st.plays.getD s 0 + 1)
    let total2 := st.totalReward.set s (st.totalReward.getD s 0 + reward)
    if plays2.getD s 0 = 1 || gtX (XVal.fin reward) (st.bestReward.getD s XVal.negInf) then
      some ⟨plays2, total2, st.bestReward.set s (XVal.fin reward), st.bestPV.set s res.2⟩
    else
      some ⟨plays2, total2, st.bestReward, st.bestPV⟩

/-- The iteration loop of MABS over the listed iteration numbers, stopping
early when the stop flag is set or no arm was selected. -/
def mabsLoop (vsqrt vlog : ℚ → ℚ) (stop : Bool)
    (recurse : Position → ℚ × List Move) (pos : Position) (moves : List Move) :
    List Nat → MabsState → MabsState
  | [], st => st
  | iter :: rest, st =>
    if stop then st
    else
      match mabsIterate vsqrt vlog recurse pos moves iter st with
      | none => st
      | some st2 => mabsLoop vsqrt vlog stop recurse pos moves rest st2

/-- MABS: returns (value, principal variation).  At depth 0 (or with the
stop flag set, or with no legal move) it returns the static evaluation
with an empty PV; otherwise it treats the legal moves as bandit arms, runs
100 UCB1 iterations, and returns the arm with the highest average reward
(bestReward for an unplayed arm), its move prepended to its best-seen
child PV.  The random generator is threaded through recursion but never
drawn from, so it is an unused parameter.  When the selection value is not
finite the returned rational is a junk 0 standing in for the IEEE
infinity; with at least one arm and the flag unset this is unreachable. -/
def MABS (vsqrt vlog : ℚ → ℚ) (stop : Bool) :
    Nat → Position → (Nat → ℚ) → ℚ × List Move
  | 0, pos, _rng => (((evaluate pos : ℤ) : ℚ), [])
  | depth + 1, pos, rng =>
    if stop then (((evaluate pos : ℤ) : ℚ), [])
    else
      let moves := pos.genMoves
      if moves.isEmpty then (((evaluate pos : ℤ) : ℚ), [])
      else
        let n := moves.length
        let st := mabsLoop vsqrt vlog stop
          (fun child => MABS vsqrt vlog stop depth child rng) pos moves
          (List.range' 1 100) (mabsInit n)
        let avg : Nat → XVal := fun i =>
          if 0 < st.plays.getD i 0 then
            XVal.fin (st.totalReward.getD i 0 / (st.plays.getD i 0 : ℚ))
          else st.bestReward.getD i XVal.negInf
        let sel := argmaxFold avg 0 (List.range n)
        let bestArm := sel.1.toNat
        let bestAvg : ℚ := match sel.2 with | XVal.fin q => q | _ => 0
        (bestAvg, moves.getD bestArm ⟨0, 0, -1⟩ :: st.bestPV.getD bestArm [])

-- ---------------------------------------------------------------------------
-- Auxiliary definitions for the statements
-- ---------------------------------------------------------------------------

/-- The same board with the side field replaced; is_in_check on
(p.withSide s) asks whether the king of side s is attacked on the board of
p.  Used only to state which king a check verdict is about. -/
def Position.withSide (p : Position) (s : Int) : Position :=
  { p with side := s }

/-- The representation invariant of a position: 12 planes, pairwise
disjoint, with the occupancy fields the exact unions of their constituent
planes. -/
structure WF (p : Position) : Prop where
  len : p.pieces.length = 12
  disj : ∀ i j b, i < j → j < 12 →
    ¬((p.pieces.getD i 0).testBit b = true ∧ (p.pieces.getD j 0).testBit b = true)
  wocc : p.wOcc = wOccOf p.pieces
  bocc : p.bOcc = bOccOf p.pieces
  aocc : p.allOcc = p.wOcc ||| p.bOcc

/-- Positions reachable from the start position by applying generated
moves. -/
inductive Reachable : Position → Prop where
  | start : Reachable Position.create_start_position
  | step (p : Position) (m : Move) :
      Reachable p → m ∈ p.genMoves → Reachable (p.makeMove m)

/-- Kings only: white king a1, black king h8, white to move. -/
def posKings : Position :=
  { pieces := [0, 0, 0, 0, 0, 1, 0, 0, 0, 0, 0, 2 ^ 63],
    wOcc := 1, bOcc := 2 ^ 63, allOcc := 1 + 2 ^ 63, side := 0 }

/-- White king a1 and pawn h2 against black rook a8 and king h8, white to
move: white is in check from the rook. -/
def posCheckedKing : Position :=
  { pieces := [2 ^ 15, 0, 0, 0, 0, 1, 0, 0, 0, 2 ^ 56, 0, 2 ^ 63],
    wOcc := 2 ^ 15 + 1, bOcc := 2 ^ 56 + 2 ^ 63,
    allOcc := 2 ^ 15 + 1 + 2 ^ 56 + 2 ^ 63, side := 0 }

/-- A lone white pawn a2 against a black king h8, white to move: the
generator produces exactly the single push a2a3. -/
def posOnePawn : Position :=
  { pieces := [2 ^ 8, 0, 0, 0, 0, 0, 0, 0, 0, 0, 0, 2 ^ 63],
    wOcc := 2 ^ 8, bOcc := 2 ^ 63, allOcc := 2 ^ 8 + 2 ^ 63, side := 0 }

/-- The empty board, white to move: no white king bit exists. -/
def posEmptyBoard : Position :=
  { pieces := List.replicate 12 0, wOcc := 0, bOcc := 0, allOcc := 0, side := 0 }

/-- The position after 1. f3 e5 2. g4 Qh4 (the Fool's Mate line) applied
from the start position with makeMove. -/
def foolsMatePos : Position :=
  (((Position.create_start_position.makeMove ⟨13, 21, -1⟩).makeMove
      ⟨52, 36, -1⟩).makeMove ⟨14, 30, -1⟩).makeMove ⟨59, 31, -1⟩

-- ---------------------------------------------------------------------------
-- Bit-level lemmas
-- ---------------------------------------------------------------------------

theorem testBit_one_shiftLeft (s b : Nat) :
    (1 <<< s).testBit b = decide (b = s) := by
  rw [Nat.shiftLeft_eq, one_mul, Nat.testBit_two_pow]
  by_cases h : s = b <;> simp [h] <;> omega

theorem testBit_clearBit (bb sq b : Nat) :
    (clearBit bb sq).testBit b = (bb.testBit b && !(decide (b = sq))) := by
  unfold clearBit
  rw [Nat.testBit_xor, Nat.testBit_and, testBit_one_shiftLeft]
  cases h : bb.testBit b <;> by_cases hb : b = sq <;> simp [hb]

theorem testBit_setBit (bb sq b : Nat) :
    (setBit bb sq).testBit b = (bb.testBit b || decide (b = sq)) := by
  unfold setBit
  rw [Nat.testBit_or, testBit_one_shiftLeft]

theorem land_eq_zero_iff {x y : Nat} :
    x &&& y = 0 ↔ ∀ b, ¬(x.testBit b = true ∧ y.testBit b = true) := by
  constructor
  · intro h b hb
    have := congrArg (fun n => n.testBit b) h
    simp [Nat.testBit_and, hb.1, hb.2] at this
  · intro h
    apply Nat.eq_of_testBit_eq
    intro b
    rw [Nat.testBit_and, Nat.zero_testBit]
    by_cases hx : x.testBit b
    · by_cases hy : y.testBit b
      · exact absurd ⟨hx, hy⟩ (h b)
      · simp [hx, hy]
    · simp [hx]

theorem countP_or_disjoint (l : List Nat) (p q : Nat → Bool)
    (h : ∀ x ∈ l, ¬(p x = true ∧ q x = true)) :
    l.countP (fun x => p x || q x) = l.countP p + l.countP q := by
  induction l with
  | nil => simp
  | cons a l ih =>
    have ha := h a (List.mem_cons_self a l)
    have hl : ∀ x ∈ l, ¬(p x = true ∧ q x = true) :=
      fun x hx => h x (List.mem_cons_of_mem a hx)
    by_cases hp : p a
    · have hq : q a = false := by
        cases hqa : q a
        · rfl
        · exact absurd ⟨hp, hqa⟩ ha
      simp [List.countP_cons, hp, hq, ih hl]
      omega
    · simp only [Bool.not_eq_true] at hp
      by_cases hq : q a <;> simp [List.countP_cons, hp, hq, ih hl] <;> omega

/-- Disjoint 64-bit values have additive popcounts. -/
theorem popcount_lor_of_disjoint {x y : Nat} (h : x &&& y = 0) :
    popcount (x ||| y) = popcount x + popcount y := by
  unfold popcount
  have hc : ∀ i ∈ List.range 64,
      ((x ||| y).testBit i = true ↔ (x.testBit i || y.testBit i) = true) := by
    intro i _
    rw [Nat.testBit_or]
  rw [List.countP_congr hc]
  exact countP_or_disjoint _ _ _ (fun b _ => (land_eq_zero_iff.mp h) b)


-- ---------------------------------------------------------------------------
-- Claim C1: legality filter polarity
-- ---------------------------------------------------------------------------

/-- C1 counterexample: in posCheckedKing (white king a1 in check from the
rook a8) the quiet pawn move h2h3 is returned by genMoves, yet after the
move the mover's own (white) king is still attacked: the filter's
is_in_check call examines the opponent's king, not the mover's. -/
theorem c1_counterexample :
    (⟨15, 23, -1⟩ : Move) ∈ posCheckedKing.genMoves ∧
      ((posCheckedKing.makeMove ⟨15, 23, -1⟩).withSide posCheckedKing.side).is_in_check
        = true := by
  constructor
  · decide
  · decide

/-- C1 (amended): every move returned by genMoves yields a position on
which is_in_check() — which, the side having flipped, examines the king of
the opponent of the mover — returns false; that is, generated moves never
leave the opponent in check (the mover's own king may remain attacked). -/
theorem c1_genMoves_post_check_false (p : Position) (m : Move)
    (h : m ∈ p.genMoves) : (p.makeMove m).is_in_check = false := by
  unfold Position.genMoves at h
  have := (List.mem_filter.mp h).2
  simpa using this

/-- C1 witness: a concrete generated move whose resulting position passes
the filter's check test. -/
theorem c1_genMoves_post_check_false_witness :
    (⟨0, 1, -1⟩ : Move) ∈ posKings.genMoves ∧
      (posKings.makeMove ⟨0, 1, -1⟩).is_in_check = false :=
  ⟨by decide, c1_genMoves_post_check_false posKings ⟨0, 1, -1⟩ (by decide)⟩

-- ---------------------------------------------------------------------------
-- Claim C2: number of moves from the start position
-- ---------------------------------------------------------------------------

/-- C2 counterexample: genMoves() on the start position does not return 20
moves (pawn double-steps are never generated). -/
theorem c2_counterexample :
    Position.create_start_position.genMoves.length ≠ 20 := by
  decide

/-- C2 (amended): genMoves() on the start position returns exactly 12
moves: 8 single pawn pushes and 4 knight moves; double-steps are not
generated. -/
theorem c2_start_moves_twelve :
    Position.create_start_position.genMoves.length = 12 := by
  decide

-- ---------------------------------------------------------------------------
-- Claim C3: Fool's Mate is not detected as checkmate (code bug)
-- ---------------------------------------------------------------------------

/-- C3, evaluation at the failing input: after 1. f3 e5 2. g4 Qh4 the side
to move (white) is in check, yet is_checkmate() returns false, because the
legality filter of genMoves keeps every white reply that does not leave
the opponent in check, so the legal-move list is nonempty. -/
theorem c3_fools_mate_not_checkmate :
    foolsMatePos.is_in_check = true ∧ foolsMatePos.is_checkmate = false := by
  constructor
  · decide
  · decide

-- ---------------------------------------------------------------------------
-- Claim C4: fromFEN active-color handling
-- ---------------------------------------------------------------------------

/-- C4 counterexample: for a FEN whose active-color field is missing (and
hence not the character b), fromFEN does NOT return side = 0: it returns
side = 1, because the code tests the token against w, not against b. -/
theorem c4_counterexample :
    ¬((Position.fromFEN "8/8/8/8/8/8/8/8").side = 0) := by
  decide

/-- C4 (amended): fromFEN returns side = 0 exactly when the active-color
token is the string w; for every other token — including a missing one —
it returns side = 1. -/
theorem c4_fromFEN_side (fen : String) :
    (Position.fromFEN fen).side =
      if (tokenize fen).getD 1 "" = "w" then 0 else 1 := rfl

-- ---------------------------------------------------------------------------
-- Claim C5: malformed moves are a no-op
-- ---------------------------------------------------------------------------

/-- C5: when no plane of the side to move has a bit at the origin square,
makeMove returns the position unchanged: all planes, all occupancies and
the side field (it is not flipped) are those of the input, and no error is
raised (the function is total). -/
theorem c5_makeMove_noop (p : Position) (m : Move)
    (h : ∀ i, i < 6 →
      ((p.pieces.getD ((if p.side = 0 then 0 else 6) + i) 0).testBit m.from') = false) :
    p.makeMove m = p := by
  have hfind : (List.range 6).find?
      (fun i => (p.pieces.getD ((if p.side = 0 then 0 else 6) + i) 0).testBit m.from')
      = none := by
    rw [List.find?_eq_none]
    intro x hx
    simp only [List.mem_range] at hx
    have hx2 := h x hx
    simp only [List.getD_eq_getElem?_getD] at hx2 ⊢
    simp [hx2]
  simp only [Position.makeMove, hfind]

/-- C5 witness: a move from the empty square a3 in the start position
leaves the position unchanged. -/
theorem c5_makeMove_noop_witness :
    (∀ i, i < 6 →
      ((Position.create_start_position.pieces.getD
          ((if Position.create_start_position.side = 0 then 0 else 6) + i) 0).testBit 16)
        = false) ∧
      Position.create_start_position.makeMove ⟨16, 24, -1⟩ =
        Position.create_start_position :=
  ⟨by decide, c5_makeMove_noop Position.create_start_position ⟨16, 24, -1⟩ (by decide)⟩

-- ---------------------------------------------------------------------------
-- Claim C10: missing king of the side to move
-- ---------------------------------------------------------------------------

/-- C10: when the side to move has no king bit, is_in_check returns false
(the early return), hence the position is never reported as checkmate;
only is_stalemate can report it (when additionally no move is
generated). -/
theorem c10_no_king_not_checkmate (p : Position)
    (h : p.pieces.getD (if p.side = 0 then 5 else 11) 0 = 0) :
    p.is_in_check = false ∧ p.is_checkmate = false ∧
      p.is_stalemate = p.genMoves.isEmpty := by
  have hc : p.is_in_check = false := by
    unfold Position.is_in_check
    have h2 := h
    simp only [List.getD_eq_getElem?_getD] at h2
    simp [h2]
  refine ⟨hc, ?_, ?_⟩
  · unfold Position.is_checkmate
    simp [hc]
  · unfold Position.is_stalemate
    simp [hc]

/-- C10 witness: on the empty board the side to move has no king bit; the
position is not in check and not checkmate. -/
theorem c10_no_king_not_checkmate_witness :
    posEmptyBoard.pieces.getD (if posEmptyBoard.side = 0 then 5 else 11) 0 = 0 ∧
      (posEmptyBoard.is_in_check = false ∧ posEmptyBoard.is_checkmate = false ∧
        posEmptyBoard.is_stalemate = posEmptyBoard.genMoves.isEmpty) :=
  ⟨by decide, c10_no_king_not_checkmate posEmptyBoard (by decide)⟩

-- ---------------------------------------------------------------------------
-- Search lemmas
-- ---------------------------------------------------------------------------

theorem chooseIndex_singleton (w r : ℚ) : chooseIndex [w] r = 0 := by
  simp only [chooseIndex, chooseIndexAux]
  by_cases h : r ≤ w <;> simp [h]

theorem argmaxFold_range_one_fst (f : Nat → XVal) :
    (argmaxFold f 0 (List.range 1)).1 = 0 := by
  have h1 : List.range 1 = [0] := rfl
  rw [h1]
  simp only [argmaxFold, List.foldl]
  by_cases h : gtX (f 0) XVal.negInf = true <;> simp [h]

theorem smtsChildren_ne_nil (recurse : Position → (Nat → ℚ) → ℚ × List Move × (Nat → ℚ))
    (stop : Bool) (pos : Position) (moves : List Move) (rng : Nat → ℚ)
    (hm : moves ≠ []) : (smtsChildren recurse stop pos moves rng).1 ≠ [] := by
  cases moves with
  | nil => exact absurd rfl hm
  | cons mv rest =>
    simp only [smtsChildren]
    by_cases h : stop = true <;> simp [h]

theorem foldl_add_eq_sum (l : List ℚ) : l.foldl (· + ·) 0 = l.sum := by
  have key : ∀ (l : List ℚ) (a : ℚ), l.foldl (· + ·) a = a + l.sum := by
    intro l
    induction l with
    | nil => intro a; simp
    | cons x xs ih =>
      intro a
      simp only [List.foldl, List.sum_cons, ih (a + x)]
      ring
  simpa using key l 0

-- ---------------------------------------------------------------------------
-- Claim C9: a single legal move heads the PV of both searches
-- ---------------------------------------------------------------------------

/-- C9: from a position whose genMoves list is exactly one move, SMTS and
MABS at depth 1 with the stop flag unset both return a PV whose first
element is that move, for every random stream and every interpretation of
exp, log and sqrt. -/
theorem c9_single_move_pv (p : Position) (m : Move) (vexp vlog vsqrt : ℚ → ℚ)
    (rng : Nat → ℚ) (hm : p.genMoves = [m]) :
    ((SMTS vexp vlog false 1 p rng).2.1).head? = some m ∧
      ((MABS vsqrt vlog false 1 p rng).2).head? = some m := by
  constructor
  · show ((SMTS vexp vlog false (0 + 1) p rng).2.1).head? = some m
    simp only [SMTS, smtsChildren, hm, Bool.false_eq_true, if_false,
      List.isEmpty_cons, chooseIndex_singleton]
    simp [chooseIndex_singleton]
  · show ((MABS vsqrt vlog false (0 + 1) p rng).2).head? = some m
    simp only [MABS, hm, Bool.false_eq_true, if_false, List.isEmpty_cons]
    simp [List.length_cons, List.length_nil, argmaxFold_range_one_fst]

/-- C9 witness: the lone-pawn position has exactly the single legal move
a2a3, and both searches head their PV with it. -/
theorem c9_single_move_pv_witness :
    posOnePawn.genMoves = [(⟨8, 16, -1⟩ : Move)] ∧
      (((SMTS id id false 1 posOnePawn (fun _ => 0)).2.1).head? = some ⟨8, 16, -1⟩ ∧
        ((MABS id id false 1 posOnePawn (fun _ => 0)).2).head? = some ⟨8, 16, -1⟩) :=
  ⟨by decide, c9_single_move_pv posOnePawn ⟨8, 16, -1⟩ id id id (fun _ => 0) (by decide)⟩

-- ---------------------------------------------------------------------------
-- Claim C6: the SMTS return value is the log-partition function
-- ---------------------------------------------------------------------------

/-- C6: for a position with at least one legal move, at depth at least 1
with the stop flag unset, SMTS returns the value
(1/beta) * log (sum of exp (beta * (childValue - maxChildValue))) +
maxChildValue with beta = 1, where the childValues are the negated
recursive values of the legal moves' children (in generation order, with
the random stream threaded through them) — independent of which child was
sampled into the PV. -/
theorem c6_smts_value (vexp vlog : ℚ → ℚ) (p : Position) (d : Nat)
    (rng : Nat → ℚ) (hm : p.genMoves ≠ []) :
    (SMTS vexp vlog false (d + 1) p rng).1 =
      (1 / (1 : ℚ)) * vlog
        (((smtsChildren (SMTS vexp vlog false d) false p p.genMoves rng).1.map
            (fun v => vexp ((1 : ℚ) *
              (v - maxList (smtsChildren (SMTS vexp vlog false d) false p p.genMoves rng).1)))).sum)
        + maxList (smtsChildren (SMTS vexp vlog false d) false p p.genMoves rng).1 := by
  have hne : (smtsChildren (SMTS vexp vlog false d) false p p.genMoves rng).1 ≠ [] :=
    smtsChildren_ne_nil _ _ _ _ _ hm
  simp only [SMTS, Bool.false_eq_true, if_false]
  rw [if_neg (by simpa [List.isEmpty_iff] using hm)]
  rw [if_neg (by simpa [List.isEmpty_iff] using hne)]
  rw [foldl_add_eq_sum]

/-- C6 witness: the kings-only position has a nonempty move list; its SMTS
value at depth 1 is the log-partition expression. -/
theorem c6_smts_value_witness :
    posKings.genMoves ≠ [] ∧
      (SMTS id id false (0 + 1) posKings (fun _ => 0)).1 =
        (1 / (1 : ℚ)) * id
          (((smtsChildren (SMTS id id false 0) false posKings posKings.genMoves (fun _ => 0)).1.map
              (fun v => id ((1 : ℚ) *
                (v - maxList (smtsChildren (SMTS id id false 0) false posKings posKings.genMoves (fun _ => 0)).1)))).sum)
          + maxList (smtsChildren (SMTS id id false 0) false posKings posKings.genMoves (fun _ => 0)).1 :=
  ⟨by decide, c6_smts_value id id posKings 0 (fun _ => 0) (by decide)⟩

-- ---------------------------------------------------------------------------
-- Order lemmas for the modelled IEEE comparisons
-- ---------------------------------------------------------------------------

theorem gtX_irrefl (x : XVal) : gtX x x = false := by
  cases x <;> simp [gtX]

theorem gtX_negInf_left (x : XVal) : gtX XVal.negInf x = false := rfl

theorem gtX_fin_negInf (q : ℚ) : gtX (XVal.fin q) XVal.negInf = true := rfl

theorem eq_negInf_of_gtX_negInf_false {x : XVal}
    (h : gtX x XVal.negInf = false) : x = XVal.negInf := by
  cases x <;> simp_all [gtX]

theorem gtX_trans {a b c : XVal} (h1 : gtX a b = true) (h2 : gtX b c = true) :
    gtX a c = true := by
  cases a <;> cases b <;> cases c <;> simp_all [gtX] <;> linarith

theorem gtX_of_gtX_of_not_gtX {a b c : XVal} (h1 : gtX a b = true)
    (h2 : gtX c b = false) : gtX a c = true := by
  cases a <;> cases b <;> cases c <;> simp_all [gtX] <;> linarith

/-- The strict-greater selection fold over 0..n-1: either no element ever
beat -inf (then every value is -inf and the initial pair survives), or the
result is the first index attaining the maximum. -/
theorem argmaxFold_spec (f : Nat → XVal) (init : Int) (n : Nat) :
    (argmaxFold f init (List.range n) = (init, XVal.negInf) ∧
        ∀ k, k < n → f k = XVal.negInf) ∨
      (∃ j, j < n ∧ argmaxFold f init (List.range n) = ((j : Int), f j) ∧
        (∀ k, k < n → gtX (f k) (f j) = false) ∧
        (∀ i, i < j → gtX (f j) (f i) = true)) := by
  induction n with
  | zero =>
    left
    exact ⟨rfl, by omega⟩
  | succ n ih =>
    have hstep : argmaxFold f init (List.range (n + 1)) =
        (if gtX (f n) (argmaxFold f init (List.range n)).2 then ((n : Int), f n)
         else argmaxFold f init (List.range n)) := by
      rw [List.range_succ]
      unfold argmaxFold
      rw [List.foldl_append]
      rfl
    rcases ih with ⟨hacc, hall⟩ | ⟨j, hj, hacc, hmax, hfirst⟩
    · rw [hacc] at hstep
      by_cases hgt : gtX (f n) XVal.negInf = true
      · right
        refine ⟨n, Nat.lt_succ_self n, ?_, ?_, ?_⟩
        · rw [hstep]; simp [hgt]
        · intro k hk
          rcases Nat.lt_succ_iff_lt_or_eq.mp hk with hk' | hk'
          · rw [hall k hk']; exact gtX_negInf_left _
          · subst hk'; exact gtX_irrefl _
        · intro i hi
          rw [hall i hi]; exact hgt
      · left
        simp only [Bool.not_eq_true] at hgt
        constructor
        · rw [hstep]; simp [hgt]
        · intro k hk
          rcases Nat.lt_succ_iff_lt_or_eq.mp hk with hk' | hk'
          · exact hall k hk'
          · subst hk'; exact eq_negInf_of_gtX_negInf_false hgt
    · rw [hacc] at hstep
      by_cases hgt : gtX (f n) (f j) = true
      · right
        refine ⟨n, Nat.lt_succ_self n, ?_, ?_, ?_⟩
        · rw [hstep]; simp [hgt]
        · intro k hk
          rcases Nat.lt_succ_iff_lt_or_eq.mp hk with hk' | hk'
          · cases hkn : gtX (f k) (f n)
            · rfl
            · exact absurd (gtX_trans hkn hgt) (by simp [hmax k hk'])
          · subst hk'; exact gtX_irrefl _
        · intro i hi
          rcases Nat.lt_trichotomy i j with hij | hij | hij
          · exact gtX_trans hgt (hfirst i hij)
          · subst hij; exact hgt
          · exact gtX_of_gtX_of_not_gtX hgt (hmax i (by omega))
      · right
        simp only [Bool.not_eq_true] at hgt
        refine ⟨j, by omega, ?_, ?_, hfirst⟩
        · rw [hstep]; simp [hgt]
        · intro k hk
          rcases Nat.lt_succ_iff_lt_or_eq.mp hk with hk' | hk'
          · exact hmax k hk'
          · subst hk'; exact hgt

-- ---------------------------------------------------------------------------
-- List getD/set helper lemmas
-- ---------------------------------------------------------------------------

theorem getD_set_cases {α : Type} (l : List α) (s : Nat) (a d : α) (k : Nat)
    (hs : s < l.length) :
    (l.set s a).getD k d = if k = s then a else l.getD k d := by
  by_cases hk : k = s
  · subst hk
    simp [List.getD_eq_getElem?_getD, List.getElem?_set_self hs]
  · simp [List.getD_eq_getElem?_getD, List.getElem?_set_ne (fun h => hk h.symm), hk]

theorem getD_set_succ_le (l : List Nat) (s k : Nat) :
    l.getD k 0 ≤ (l.set s (l.getD s 0 + 1)).getD k 0 := by
  by_cases hs : s < l.length
  · rw [getD_set_cases l s _ 0 k hs]
    by_cases hk : k = s
    · subst hk; simp
    · simp [hk]
  · rw [List.set_eq_of_length_le (by omega)]

theorem getD_replicate_lt {α : Type} (n : Nat) (a d : α) (k : Nat) (h : k < n) :
    (List.replicate n a).getD k d = a := by
  simp [List.getD_eq_getElem?_getD, List.getElem?_replicate, h]

-- ---------------------------------------------------------------------------
-- MABS iteration lemmas
-- ---------------------------------------------------------------------------

/-- A successful MABS iteration updates the statistics of one in-range arm:
plays and cumulative reward always, best reward and best PV only when the
arm was just first played or the reward beat the recorded best. -/
theorem mabsIterate_cases (vsqrt vlog : ℚ → ℚ)
    (recurse : Position → ℚ × List Move) (pos : Position) (moves : List Move)
    (iter : Nat) (st st2 : MabsState)
    (h : mabsIterate vsqrt vlog recurse pos moves iter st = some st2) :
    ∃ s, s < moves.length ∧ ∃ rw : ℚ, ∃ pv : List Move,
      st2.plays = st.plays.set s (st.plays.getD s 0 + 1) ∧
      st2.totalReward = st.totalReward.set s (st.totalReward.getD s 0 + rw) ∧
      ((st2.bestReward = st.bestReward.set s (XVal.fin rw) ∧
          st2.bestPV = st.bestPV.set s pv) ∨
        (st2.bestReward = st.bestReward ∧ st2.bestPV = st.bestPV)) := by
  unfold mabsIterate at h
  dsimp only at h
  rcases argmaxFold_spec (ucbOf vsqrt vlog st iter) (-1) moves.length with
    ⟨hacc, _⟩ | ⟨j, hj, hacc, _, _⟩
  · have hfst : (argmaxFold (ucbOf vsqrt vlog st iter) (-1)
        (List.range moves.length)).1 = (-1 : Int) := by rw [hacc]
    rw [hfst] at h
    norm_num at h
    exact Option.noConfusion h
  · have hfst : (argmaxFold (ucbOf vsqrt vlog st iter) (-1)
        (List.range moves.length)).1 = (j : Int) := by rw [hacc]
    rw [hfst] at h
    have hnonneg : ¬((j : Int) < 0) := by omega
    rw [if_neg hnonneg] at h
    simp only [Int.toNat_natCast] at h
    by_cases hbr : (decide ((st.plays.set j (st.plays.getD j 0 + 1)).getD j 0 = 1) ||
        gtX (XVal.fin (-(recurse (pos.makeMove (moves.getD j ⟨0, 0, -1⟩))).1))
          (st.bestReward.getD j XVal.negInf)) = true
    · rw [if_pos hbr] at h
      refine ⟨j, hj, -(recurse (pos.makeMove (moves.getD j ⟨0, 0, -1⟩))).1,
        (recurse (pos.makeMove (moves.getD j ⟨0, 0, -1⟩))).2, ?_, ?_, ?_⟩ <;>
        cases h <;> simp
    · rw [if_neg hbr] at h
      refine ⟨j, hj, -(recurse (pos.makeMove (moves.getD j ⟨0, 0, -1⟩))).1,
        [], ?_, ?_, ?_⟩ <;> cases h <;> simp

/-- Play counts never decrease across the iteration loop. -/
theorem mabsLoop_plays_le (vsqrt vlog : ℚ → ℚ)
    (recurse : Position → ℚ × List Move) (pos : Position) (moves : List Move) :
    ∀ (iters : List Nat) (st : MabsState) (k : Nat),
      st.plays.getD k 0 ≤
        (mabsLoop vsqrt vlog false recurse pos moves iters st).plays.getD k 0 := by
  intro iters
  induction iters with
  | nil => intro st k; simp [mabsLoop]
  | cons it rest ih =>
    intro st k
    simp only [mabsLoop, Bool.false_eq_true, if_false]
    cases hit : mabsIterate vsqrt vlog recurse pos moves it st with
    | none => simp only [hit]; exact le_refl _
    | some st2 =>
      simp only [hit]
      rcases mabsIterate_cases vsqrt vlog recurse pos moves it st st2 hit with
        ⟨s, hs, rw', pv, hpl, _, _⟩
      calc st.plays.getD k 0 ≤ st2.plays.getD k 0 := by
            rw [hpl]; exact getD_set_succ_le _ _ _
        _ ≤ _ := ih st2 k

/-- Across the loop, the state keeps all four statistics lists at the
number of arms, and an unplayed arm keeps best reward -inf. -/
theorem mabsLoop_inv (vsqrt vlog : ℚ → ℚ)
    (recurse : Position → ℚ × List Move) (pos : Position) (moves : List Move) :
    ∀ (iters : List Nat) (st : MabsState),
      st.plays.length = moves.length → st.bestReward.length = moves.length →
      (∀ k, st.plays.getD k 0 = 0 → st.bestReward.getD k XVal.negInf = XVal.negInf) →
      ((mabsLoop vsqrt vlog false recurse pos moves iters st).plays.length = moves.length ∧
        (mabsLoop vsqrt vlog false recurse pos moves iters st).bestReward.length = moves.length ∧
        ∀ k, (mabsLoop vsqrt vlog false recurse pos moves iters st).plays.getD k 0 = 0 →
          (mabsLoop vsqrt vlog false recurse pos moves iters st).bestReward.getD k XVal.negInf
            = XVal.negInf) := by
  intro iters
  induction iters with
  | nil =>
    intro st h1 h2 h3
    simp only [mabsLoop]
    exact ⟨h1, h2, h3⟩
  | cons it rest ih =>
    intro st h1 h2 h3
    simp only [mabsLoop, Bool.false_eq_true, if_false]
    cases hit : mabsIterate vsqrt vlog recurse pos moves it st with
    | none =>
      simp only [hit]
      exact ⟨h1, h2, h3⟩
    | some st2 =>
      simp only [hit]
      rcases mabsIterate_cases vsqrt vlog recurse pos moves it st st2 hit with
        ⟨s, hs, rw', pv, hpl, _, hbr⟩
      have hlen1 : st2.plays.length = moves.length := by rw [hpl, List.length_set, h1]
      have hlen2 : st2.bestReward.length = moves.length := by
        rcases hbr with ⟨hb, _⟩ | ⟨hb, _⟩ <;> rw [hb] <;> simp [h2]
      refine ih st2 hlen1 hlen2 ?_
      intro k hk
      have hks : k ≠ s := by
        intro hks
        subst hks
        rw [hpl, getD_set_cases _ _ _ _ _ (by rw [h1]; exact hs)] at hk
        simp at hk
      have hkpl : st.plays.getD k 0 = 0 := by
        by_cases hkl : s < st.plays.length
        · rw [hpl, getD_set_cases _ _ _ _ _ hkl, if_neg hks] at hk
          exact hk
        · rw [hpl, List.set_eq_of_length_le (by omega)] at hk
          exact hk
      have hbk := h3 k hkpl
      rcases hbr with ⟨hb, _⟩ | ⟨hb, _⟩
      · rw [hb]
        by_cases hsl : s < st.bestReward.length
        · rw [getD_set_cases _ _ _ _ _ hsl, if_neg hks]
          exact hbk
        · rw [List.set_eq_of_length_le (by omega)]
          exact hbk
      · rw [hb]
        exact hbk

/-- With at least one arm and at least one iteration, some in-range arm
ends the loop with a positive play count (the first iteration plays an
arm: all arms start at UCB +inf). -/
theorem mabsLoop_exists_played (vsqrt vlog : ℚ → ℚ)
    (recurse : Position → ℚ × List Move) (pos : Position) (moves : List Move)
    (it : Nat) (rest : List Nat) (hn : moves ≠ []) :
    ∃ s, s < moves.length ∧
      0 < (mabsLoop vsqrt vlog false recurse pos moves (it :: rest)
        (mabsInit moves.length)).plays.getD s 0 := by
  have hn' : 0 < moves.length := List.length_pos.mpr hn
  simp only [mabsLoop, Bool.false_eq_true, if_false]
  cases hit : mabsIterate vsqrt vlog recurse pos moves it (mabsInit moves.length) with
  | none =>
    exfalso
    unfold mabsIterate at hit
    dsimp only at hit
    rcases argmaxFold_spec (ucbOf vsqrt vlog (mabsInit moves.length) it) (-1)
        moves.length with ⟨hacc, hall⟩ | ⟨j, hj, hacc, _, _⟩
    · have h0 := hall 0 hn'
      unfold ucbOf at h0
      rw [show (mabsInit moves.length).plays = List.replicate moves.length 0 from rfl,
        getD_replicate_lt _ _ _ _ hn'] at h0
      simp at h0
    · have hfst : (argmaxFold (ucbOf vsqrt vlog (mabsInit moves.length) it) (-1)
          (List.range moves.length)).1 = (j : Int) := by rw [hacc]
      rw [hfst, if_neg (by omega)] at hit
      by_cases hbr : (decide (((mabsInit moves.length).plays.set (j : Int).toNat
            ((mabsInit moves.length).plays.getD (j : Int).toNat 0 + 1)).getD
              (j : Int).toNat 0 = 1) ||
          gtX (XVal.fin (-(recurse (pos.makeMove
              (moves.getD (j : Int).toNat ⟨0, 0, -1⟩))).1))
            ((mabsInit moves.length).bestReward.getD (j : Int).toNat XVal.negInf))
          = true
      · rw [if_pos hbr] at hit
        exact Option.noConfusion hit
      · rw [if_neg hbr] at hit
        exact Option.noConfusion hit
  | some st2 =>
    simp only [hit]
    rcases mabsIterate_cases vsqrt vlog recurse pos moves it (mabsInit moves.length)
        st2 hit with ⟨s, hs, rw', pv, hpl, _, _⟩
    refine ⟨s, hs, ?_⟩
    have h1 : st2.plays.getD s 0 = 1 := by
      rw [hpl, getD_set_cases _ _ _ _ _ (by simp [mabsInit]; omega)]
      simp [mabsInit, getD_replicate_lt _ _ _ _ hs]
    have := mabsLoop_plays_le vsqrt vlog recurse pos moves rest st2 s
    omega

-- ---------------------------------------------------------------------------
-- Claim C7: MABS returns the best-average arm after its 100 iterations
-- ---------------------------------------------------------------------------

/-- C7: for a position with at least one legal move, at depth at least 1
with the stop flag unset, MABS runs its 100 fixed iterations and returns
the average reward (cumulative reward divided by play count) of the arm
with the highest average reward, ties broken in favor of the
first-encountered arm index (an unplayed arm scores its -inf best-reward
sentinel and never wins), together with a PV formed by that arm's move
prepended to its best-seen child PV. -/
theorem c7_mabs_selects_best_average (vsqrt vlog : ℚ → ℚ) (p : Position)
    (d : Nat) (rng : Nat → ℚ) (hm : p.genMoves ≠ []) :
    ∃ j, j < p.genMoves.length ∧
      0 < (mabsLoop vsqrt vlog false (fun c => MABS vsqrt vlog false d c rng) p p.genMoves (List.range' 1 100) (mabsInit p.genMoves.length)).plays.getD j 0 ∧
      (∀ k, k < p.genMoves.length →
        gtX (if 0 < (mabsLoop vsqrt vlog false (fun c => MABS vsqrt vlog false d c rng) p p.genMoves (List.range' 1 100) (mabsInit p.genMoves.length)).plays.getD k 0 then XVal.fin ((mabsLoop vsqrt vlog false (fun c => MABS vsqrt vlog false d c rng) p p.genMoves (List.range' 1 100) (mabsInit p.genMoves.length)).totalReward.getD k 0 / ((mabsLoop vsqrt vlog false (fun c => MABS vsqrt vlog false d c rng) p p.genMoves (List.range' 1 100) (mabsInit p.genMoves.length)).plays.getD k 0 : ℚ)) else (mabsLoop vsqrt vlog false (fun c => MABS vsqrt vlog false d c rng) p p.genMoves (List.range' 1 100) (mabsInit p.genMoves.length)).bestReward.getD k XVal.negInf) (if 0 < (mabsLoop vsqrt vlog false (fun c => MABS vsqrt vlog false d c rng) p p.genMoves (List.range' 1 100) (mabsInit p.genMoves.length)).plays.getD j 0 then XVal.fin ((mabsLoop vsqrt vlog false (fun c => MABS vsqrt vlog false d c rng) p p.genMoves (List.range' 1 100) (mabsInit p.genMoves.length)).totalReward.getD j 0 / ((mabsLoop vsqrt vlog false (fun c => MABS vsqrt vlog false d c rng) p p.genMoves (List.range' 1 100) (mabsInit p.genMoves.length)).plays.getD j 0 : ℚ)) else (mabsLoop vsqrt vlog false (fun c => MABS vsqrt vlog false d c rng) p p.genMoves (List.range' 1 100) (mabsInit p.genMoves.length)).bestReward.getD j XVal.negInf) = false) ∧
      (∀ i, i < j →
        gtX (if 0 < (mabsLoop vsqrt vlog false (fun c => MABS vsqrt vlog false d c rng) p p.genMoves (List.range' 1 100) (mabsInit p.genMoves.length)).plays.getD j 0 then XVal.fin ((mabsLoop vsqrt vlog false (fun c => MABS vsqrt vlog false d c rng) p p.genMoves (List.range' 1 100) (mabsInit p.genMoves.length)).totalReward.getD j 0 / ((mabsLoop vsqrt vlog false (fun c => MABS vsqrt vlog false d c rng) p p.genMoves (List.range' 1 100) (mabsInit p.genMoves.length)).plays.getD j 0 : ℚ)) else (mabsLoop vsqrt vlog false (fun c => MABS vsqrt vlog false d c rng) p p.genMoves (List.range' 1 100) (mabsInit p.genMoves.length)).bestReward.getD j XVal.negInf) (if 0 < (mabsLoop vsqrt vlog false (fun c => MABS vsqrt vlog false d c rng) p p.genMoves (List.range' 1 100) (mabsInit p.genMoves.length)).plays.getD i 0 then XVal.fin ((mabsLoop vsqrt vlog false (fun c => MABS vsqrt vlog false d c rng) p p.genMoves (List.range' 1 100) (mabsInit p.genMoves.length)).totalReward.getD i 0 / ((mabsLoop vsqrt vlog false (fun c => MABS vsqrt vlog false d c rng) p p.genMoves (List.range' 1 100) (mabsInit p.genMoves.length)).plays.getD i 0 : ℚ)) else (mabsLoop vsqrt vlog false (fun c => MABS vsqrt vlog false d c rng) p p.genMoves (List.range' 1 100) (mabsInit p.genMoves.length)).bestReward.getD i XVal.negInf) = true) ∧
      MABS vsqrt vlog false (d + 1) p rng =
        ((mabsLoop vsqrt vlog false (fun c => MABS vsqrt vlog false d c rng) p p.genMoves (List.range' 1 100) (mabsInit p.genMoves.length)).totalReward.getD j 0 / ((mabsLoop vsqrt vlog false (fun c => MABS vsqrt vlog false d c rng) p p.genMoves (List.range' 1 100) (mabsInit p.genMoves.length)).plays.getD j 0 : ℚ),
         p.genMoves.getD j ⟨0, 0, -1⟩ :: (mabsLoop vsqrt vlog false (fun c => MABS vsqrt vlog false d c rng) p p.genMoves (List.range' 1 100) (mabsInit p.genMoves.length)).bestPV.getD j []) := by
  obtain ⟨s, hs, hsp⟩ := mabsLoop_exists_played vsqrt vlog
    (fun c => MABS vsqrt vlog false d c rng) p p.genMoves 1 (List.range' 2 99) hm
  have hiters : (1 :: List.range' 2 99 : List Nat) = List.range' 1 100 := rfl
  rw [hiters] at hsp
  have hinv := mabsLoop_inv vsqrt vlog (fun c => MABS vsqrt vlog false d c rng)
    p p.genMoves (List.range' 1 100) (mabsInit p.genMoves.length)
    (by simp [mabsInit]) (by simp [mabsInit]) ?hbase
  case hbase =>
    intro k _
    by_cases hkn : k < p.genMoves.length
    · exact getD_replicate_lt _ _ _ _ hkn
    · simp [mabsInit, List.getD_eq_getElem?_getD, List.getElem?_replicate, hkn]
  rcases argmaxFold_spec
      (fun i => (if 0 < (mabsLoop vsqrt vlog false (fun c => MABS vsqrt vlog false d c rng) p p.genMoves (List.range' 1 100) (mabsInit p.genMoves.length)).plays.getD i 0 then XVal.fin ((mabsLoop vsqrt vlog false (fun c => MABS vsqrt vlog false d c rng) p p.genMoves (List.range' 1 100) (mabsInit p.genMoves.length)).totalReward.getD i 0 / ((mabsLoop vsqrt vlog false (fun c => MABS vsqrt vlog false d c rng) p p.genMoves (List.range' 1 100) (mabsInit p.genMoves.length)).plays.getD i 0 : ℚ)) else (mabsLoop vsqrt vlog false (fun c => MABS vsqrt vlog false d c rng) p p.genMoves (List.range' 1 100) (mabsInit p.genMoves.length)).bestReward.getD i XVal.negInf)) 0 p.genMoves.length with
    ⟨hacc, hall⟩ | ⟨j, hj, hacc, hmax, hfirst⟩
  · exfalso
    have h0 := hall s hs
    rw [if_pos hsp] at h0
    exact XVal.noConfusion h0
  · have hAs : (if 0 < (mabsLoop vsqrt vlog false (fun c => MABS vsqrt vlog false d c rng) p p.genMoves (List.range' 1 100) (mabsInit p.genMoves.length)).plays.getD s 0 then XVal.fin ((mabsLoop vsqrt vlog false (fun c => MABS vsqrt vlog false d c rng) p p.genMoves (List.range' 1 100) (mabsInit p.genMoves.length)).totalReward.getD s 0 / ((mabsLoop vsqrt vlog false (fun c => MABS vsqrt vlog false d c rng) p p.genMoves (List.range' 1 100) (mabsInit p.genMoves.length)).plays.getD s 0 : ℚ)) else (mabsLoop vsqrt vlog false (fun c => MABS vsqrt vlog false d c rng) p p.genMoves (List.range' 1 100) (mabsInit p.genMoves.length)).bestReward.getD s XVal.negInf) = XVal.fin ((mabsLoop vsqrt vlog false (fun c => MABS vsqrt vlog false d c rng) p p.genMoves (List.range' 1 100) (mabsInit p.genMoves.length)).totalReward.getD s 0 / ((mabsLoop vsqrt vlog false (fun c => MABS vsqrt vlog false d c rng) p p.genMoves (List.range' 1 100) (mabsInit p.genMoves.length)).plays.getD s 0 : ℚ)) :=
      if_pos hsp
    have hAjne : ¬((if 0 < (mabsLoop vsqrt vlog false (fun c => MABS vsqrt vlog false d c rng) p p.genMoves (List.range' 1 100) (mabsInit p.genMoves.length)).plays.getD j 0 then XVal.fin ((mabsLoop vsqrt vlog false (fun c => MABS vsqrt vlog false d c rng) p p.genMoves (List.range' 1 100) (mabsInit p.genMoves.length)).totalReward.getD j 0 / ((mabsLoop vsqrt vlog false (fun c => MABS vsqrt vlog false d c rng) p p.genMoves (List.range' 1 100) (mabsInit p.genMoves.length)).plays.getD j 0 : ℚ)) else (mabsLoop vsqrt vlog false (fun c => MABS vsqrt vlog false d c rng) p p.genMoves (List.range' 1 100) (mabsInit p.genMoves.length)).bestReward.getD j XVal.negInf) = XVal.negInf) := by
      intro hneg
      have hx := hmax s hs
      rw [hAs, hneg] at hx
      simp [gtX] at hx
    have hpj : 0 < (mabsLoop vsqrt vlog false (fun c => MABS vsqrt vlog false d c rng) p p.genMoves (List.range' 1 100) (mabsInit p.genMoves.length)).plays.getD j 0 := by
      by_contra hnp
      apply hAjne
      rw [if_neg hnp]
      exact hinv.2.2 j (by omega)
    refine ⟨j, hj, hpj, hmax, hfirst, ?_⟩
    have h1 : (argmaxFold (fun i => (if 0 < (mabsLoop vsqrt vlog false (fun c => MABS vsqrt vlog false d c rng) p p.genMoves (List.range' 1 100) (mabsInit p.genMoves.length)).plays.getD i 0 then XVal.fin ((mabsLoop vsqrt vlog false (fun c => MABS vsqrt vlog false d c rng) p p.genMoves (List.range' 1 100) (mabsInit p.genMoves.length)).totalReward.getD i 0 / ((mabsLoop vsqrt vlog false (fun c => MABS vsqrt vlog false d c rng) p p.genMoves (List.range' 1 100) (mabsInit p.genMoves.length)).plays.getD i 0 : ℚ)) else (mabsLoop vsqrt vlog false (fun c => MABS vsqrt vlog false d c rng) p p.genMoves (List.range' 1 100) (mabsInit p.genMoves.length)).bestReward.getD i XVal.negInf)) 0
        (List.range p.genMoves.length)).1 = (j : Int) := by rw [hacc]
    have h2 : (argmaxFold (fun i => (if 0 < (mabsLoop vsqrt vlog false (fun c => MABS vsqrt vlog false d c rng) p p.genMoves (List.range' 1 100) (mabsInit p.genMoves.length)).plays.getD i 0 then XVal.fin ((mabsLoop vsqrt vlog false (fun c => MABS vsqrt vlog false d c rng) p p.genMoves (List.range' 1 100) (mabsInit p.genMoves.length)).totalReward.getD i 0 / ((mabsLoop vsqrt vlog false (fun c => MABS vsqrt vlog false d c rng) p p.genMoves (List.range' 1 100) (mabsInit p.genMoves.length)).plays.getD i 0 : ℚ)) else (mabsLoop vsqrt vlog false (fun c => MABS vsqrt vlog false d c rng) p p.genMoves (List.range' 1 100) (mabsInit p.genMoves.length)).bestReward.getD i XVal.negInf)) 0
        (List.range p.genMoves.length)).2 = (if 0 < (mabsLoop vsqrt vlog false (fun c => MABS vsqrt vlog false d c rng) p p.genMoves (List.range' 1 100) (mabsInit p.genMoves.length)).plays.getD j 0 then XVal.fin ((mabsLoop vsqrt vlog false (fun c => MABS vsqrt vlog false d c rng) p p.genMoves (List.range' 1 100) (mabsInit p.genMoves.length)).totalReward.getD j 0 / ((mabsLoop vsqrt vlog false (fun c => MABS vsqrt vlog false d c rng) p p.genMoves (List.range' 1 100) (mabsInit p.genMoves.length)).plays.getD j 0 : ℚ)) else (mabsLoop vsqrt vlog false (fun c => MABS vsqrt vlog false d c rng) p p.genMoves (List.range' 1 100) (mabsInit p.genMoves.length)).bestReward.getD j XVal.negInf) := by rw [hacc]
    simp only [MABS, Bool.false_eq_true, if_false]
    rw [if_neg (by simpa [List.isEmpty_iff] using hm)]
    simp only [h1, h2, Int.toNat_natCast, if_pos hpj]

/-- C7 witness: the kings-only position has legal moves; MABS at depth 1
returns the best-average arm's statistics. -/
theorem c7_mabs_selects_best_average_witness :
    posKings.genMoves ≠ [] ∧
      (∃ j, j < posKings.genMoves.length ∧
        0 < (mabsLoop id id false (fun c => MABS id id false 0 c (fun _ => 0)) posKings posKings.genMoves (List.range' 1 100) (mabsInit posKings.genMoves.length)).plays.getD j 0 ∧
        (∀ k, k < posKings.genMoves.length →
          gtX (if 0 < (mabsLoop id id false (fun c => MABS id id false 0 c (fun _ => 0)) posKings posKings.genMoves (List.range' 1 100) (mabsInit posKings.genMoves.length)).plays.getD k 0 then XVal.fin ((mabsLoop id id false (fun c => MABS id id false 0 c (fun _ => 0)) posKings posKings.genMoves (List.range' 1 100) (mabsInit posKings.genMoves.length)).totalReward.getD k 0 / ((mabsLoop id id false (fun c => MABS id id false 0 c (fun _ => 0)) posKings posKings.genMoves (List.range' 1 100) (mabsInit posKings.genMoves.length)).plays.getD k 0 : ℚ)) else (mabsLoop id id false (fun c => MABS id id false 0 c (fun _ => 0)) posKings posKings.genMoves (List.range' 1 100) (mabsInit posKings.genMoves.length)).bestReward.getD k XVal.negInf) (if 0 < (mabsLoop id id false (fun c => MABS id id false 0 c (fun _ => 0)) posKings posKings.genMoves (List.range' 1 100) (mabsInit posKings.genMoves.length)).plays.getD j 0 then XVal.fin ((mabsLoop id id false (fun c => MABS id id false 0 c (fun _ => 0)) posKings posKings.genMoves (List.range' 1 100) (mabsInit posKings.genMoves.length)).totalReward.getD j 0 / ((mabsLoop id id false (fun c => MABS id id false 0 c (fun _ => 0)) posKings posKings.genMoves (List.range' 1 100) (mabsInit posKings.genMoves.length)).plays.getD j 0 : ℚ)) else (mabsLoop id id false (fun c => MABS id id false 0 c (fun _ => 0)) posKings posKings.genMoves (List.range' 1 100) (mabsInit posKings.genMoves.length)).bestReward.getD j XVal.negInf) = false) ∧
        (∀ i, i < j →
          gtX (if 0 < (mabsLoop id id false (fun c => MABS id id false 0 c (fun _ => 0)) posKings posKings.genMoves (List.range' 1 100) (mabsInit posKings.genMoves.length)).plays.getD j 0 then XVal.fin ((mabsLoop id id false (fun c => MABS id id false 0 c (fun _ => 0)) posKings posKings.genMoves (List.range' 1 100) (mabsInit posKings.genMoves.length)).totalReward.getD j 0 / ((mabsLoop id id false (fun c => MABS id id false 0 c (fun _ => 0)) posKings posKings.genMoves (List.range' 1 100) (mabsInit posKings.genMoves.length)).plays.getD j 0 : ℚ)) else (mabsLoop id id false (fun c => MABS id id false 0 c (fun _ => 0)) posKings posKings.genMoves (List.range' 1 100) (mabsInit posKings.genMoves.length)).bestReward.getD j XVal.negInf) (if 0 < (mabsLoop id id false (fun c => MABS id id false 0 c (fun _ => 0)) posKings posKings.genMoves (List.range' 1 100) (mabsInit posKings.genMoves.length)).plays.getD i 0 then XVal.fin ((mabsLoop id id false (fun c => MABS id id false 0 c (fun _ => 0)) posKings posKings.genMoves (List.range' 1 100) (mabsInit posKings.genMoves.length)).totalReward.getD i 0 / ((mabsLoop id id false (fun c => MABS id id false 0 c (fun _ => 0)) posKings posKings.genMoves (List.range' 1 100) (mabsInit posKings.genMoves.length)).plays.getD i 0 : ℚ)) else (mabsLoop id id false (fun c => MABS id id false 0 c (fun _ => 0)) posKings posKings.genMoves (List.range' 1 100) (mabsInit posKings.genMoves.length)).bestReward.getD i XVal.negInf) = true) ∧
        MABS id id false (0 + 1) posKings (fun _ => 0) =
          ((mabsLoop id id false (fun c => MABS id id false 0 c (fun _ => 0)) posKings posKings.genMoves (List.range' 1 100) (mabsInit posKings.genMoves.length)).totalReward.getD j 0 / ((mabsLoop id id false (fun c => MABS id id false 0 c (fun _ => 0)) posKings posKings.genMoves (List.range' 1 100) (mabsInit posKings.genMoves.length)).plays.getD j 0 : ℚ),
           posKings.genMoves.getD j ⟨0, 0, -1⟩ :: (mabsLoop id id false (fun c => MABS id id false 0 c (fun _ => 0)) posKings posKings.genMoves (List.range' 1 100) (mabsInit posKings.genMoves.length)).bestPV.getD j [])) :=
  ⟨by decide, c7_mabs_selects_best_average id id posKings 0 (fun _ => 0) (by decide)⟩

-- ---------------------------------------------------------------------------
-- Occupancy lemmas
-- ---------------------------------------------------------------------------

theorem wOccOf_testBit (pcs : List Nat) (b : Nat) :
    (wOccOf pcs).testBit b = true ↔
      ∃ i, i < 6 ∧ (pcs.getD i 0).testBit b = true := by
  unfold wOccOf
  simp only [Nat.testBit_or, Bool.or_eq_true]
  constructor
  · rintro (((((h | h) | h) | h) | h) | h)
    exacts [⟨0, by omega, h⟩, ⟨1, by omega, h⟩, ⟨2, by omega, h⟩,
      ⟨3, by omega, h⟩, ⟨4, by omega, h⟩, ⟨5, by omega, h⟩]
  · rintro ⟨i, hi, h⟩
    simp only [List.getD_eq_getElem?_getD] at h
    interval_cases i <;> simp [h]

theorem bOccOf_testBit (pcs : List Nat) (b : Nat) :
    (bOccOf pcs).testBit b = true ↔
      ∃ i, 6 ≤ i ∧ i < 12 ∧ (pcs.getD i 0).testBit b = true := by
  unfold bOccOf
  simp only [Nat.testBit_or, Bool.or_eq_true]
  constructor
  · rintro (((((h | h) | h) | h) | h) | h)
    exacts [⟨6, by omega, by omega, h⟩, ⟨7, by omega, by omega, h⟩,
      ⟨8, by omega, by omega, h⟩, ⟨9, by omega, by omega, h⟩,
      ⟨10, by omega, by omega, h⟩, ⟨11, by omega, by omega, h⟩]
  · rintro ⟨i, h6, hi, h⟩
    simp only [List.getD_eq_getElem?_getD] at h
    interval_cases i <;> simp [h]

/-- Under the invariant the white and black occupancies share no bit. -/
theorem WF.occ_disjoint {p : Position} (hwf : WF p) (b : Nat) :
    ¬(p.wOcc.testBit b = true ∧ p.bOcc.testBit b = true) := by
  rintro ⟨hw, hb⟩
  rw [hwf.wocc, wOccOf_testBit] at hw
  rw [hwf.bocc, bOccOf_testBit] at hb
  obtain ⟨i, hi, hib⟩ := hw
  obtain ⟨j, hj6, hj, hjb⟩ := hb
  exact hwf.disj i j b (by omega) hj ⟨hib, hjb⟩

/-- Under the invariant a plane of the side to move is contained in that
side's occupancy. -/
theorem WF.plane_le_friendly {p : Position} (hwf : WF p) (k b : Nat)
    (hk : (if p.side = 0 then 0 else 6) ≤ k) (hk6 : k < (if p.side = 0 then 0 else 6) + 6)
    (h : (p.pieces.getD k 0).testBit b = true) :
    (if p.side = 0 then p.wOcc else p.bOcc).testBit b = true := by
  by_cases hside : p.side = 0
  · simp only [hside, if_pos] at hk hk6 ⊢
    rw [hwf.wocc, wOccOf_testBit]
    exact ⟨k, by omega, h⟩
  · simp only [hside, if_neg, if_false] at hk hk6 ⊢
    rw [hwf.bocc, bOccOf_testBit]
    exact ⟨k, by omega, by omega, h⟩

-- ---------------------------------------------------------------------------
-- Generated moves never target a friendly-occupied square
-- ---------------------------------------------------------------------------

theorem slideWalk_not_friendly (friendly enemy : Nat) (fro : Nat) (dr df : Int) :
    ∀ (fuel : Nat) (r f : Int) (m : Move),
      m ∈ slideWalk friendly enemy fro dr df r f fuel →
      friendly.testBit m.to' = false := by
  intro fuel
  induction fuel with
  | zero => intro r f m h; simp [slideWalk] at h
  | succ n ih =>
    intro r f m h
    simp only [slideWalk] at h
    by_cases hb : (decide (r + dr < 0) || decide (8 ≤ r + dr) ||
        decide (f + df < 0) || decide (8 ≤ f + df)) = true
    · rw [if_pos hb] at h
      simp at h
    · rw [if_neg hb] at h
      by_cases hf : friendly.testBit (((r + dr) * 8 + (f + df)).toNat) = true
      · rw [if_pos hf] at h
        simp at h
      · rw [if_neg hf] at h
        simp only [Bool.not_eq_true] at hf
        by_cases he : enemy.testBit (((r + dr) * 8 + (f + df)).toNat) = true
        · rw [if_pos he] at h
          simp only [List.mem_singleton] at h
          subst h
          exact hf
        · rw [if_neg he] at h
          rcases List.mem_cons.mp h with h1 | h1
          · subst h1
            exact hf
          · exact ih (r + dr) (f + df) m h1

theorem generateSlidingMoves_not_friendly (p : Position) (pt : Nat)
    (dirs : List (Int × Int)) (m : Move)
    (h : m ∈ p.generateSlidingMoves pt dirs) :
    (if p.side = 0 then p.wOcc else p.bOcc).testBit m.to' = false := by
  unfold Position.generateSlidingMoves at h
  obtain ⟨fro, _, h2⟩ := List.mem_flatMap.mp h
  obtain ⟨d, _, h3⟩ := List.mem_flatMap.mp h2
  exact slideWalk_not_friendly _ _ fro d.1 d.2 8 _ _ m h3

theorem generateKnightMoves_not_friendly (p : Position) (m : Move)
    (h : m ∈ p.generateKnightMoves) :
    (if p.side = 0 then p.wOcc else p.bOcc).testBit m.to' = false := by
  unfold Position.generateKnightMoves at h
  obtain ⟨fro, _, h2⟩ := List.mem_flatMap.mp h
  obtain ⟨d, _, h3⟩ := List.mem_flatMap.mp h2
  dsimp only at h3
  by_cases hb : (decide (((fro / 8 : Nat) : Int) + d.1 < 0) ||
      decide (8 ≤ ((fro / 8 : Nat) : Int) + d.1) ||
      decide (((fro % 8 : Nat) : Int) + d.2 < 0) ||
      decide (8 ≤ ((fro % 8 : Nat) : Int) + d.2)) = true
  · rw [if_pos hb] at h3
    simp at h3
  · rw [if_neg hb] at h3
    by_cases hf : (if p.side = 0 then p.wOcc else p.bOcc).testBit
        (((((fro / 8 : Nat) : Int) + d.1) * 8 + (((fro % 8 : Nat) : Int) + d.2)).toNat)
        = true
    · rw [if_pos hf] at h3
      simp at h3
    · rw [if_neg hf] at h3
      simp only [List.mem_singleton] at h3
      subst h3
      simpa using hf

theorem generateKingMoves_not_friendly (p : Position) (m : Move)
    (h : m ∈ p.generateKingMoves) :
    (if p.side = 0 then p.wOcc else p.bOcc).testBit m.to' = false := by
  unfold Position.generateKingMoves at h
  by_cases hk : p.pieces.getD ((if p.side = 0 then 0 else 6) + 5) 0 = 0
  · rw [if_pos hk] at h
    simp at h
  · rw [if_neg hk] at h
    obtain ⟨d, _, h3⟩ := List.mem_flatMap.mp h
    dsimp only at h3
    set fro := ctz (p.pieces.getD ((if p.side = 0 then 0 else 6) + 5) 0) with hfro
    by_cases hb : (decide (((fro / 8 : Nat) : Int) + d.1 < 0) ||
        decide (8 ≤ ((fro / 8 : Nat) : Int) + d.1) ||
        decide (((fro % 8 : Nat) : Int) + d.2 < 0) ||
        decide (8 ≤ ((fro % 8 : Nat) : Int) + d.2)) = true
    · rw [if_pos hb] at h3
      simp at h3
    · rw [if_neg hb] at h3
      by_cases hf : (if p.side = 0 then p.wOcc else p.bOcc).testBit
          (((((fro / 8 : Nat) : Int) + d.1) * 8 + (((fro % 8 : Nat) : Int) + d.2)).toNat)
          = true
      · rw [if_pos hf] at h3
        simp at h3
      · rw [if_neg hf] at h3
        simp only [List.mem_singleton] at h3
        subst h3
        simpa using hf

theorem generatePawnMoves_not_friendly (p : Position) (hwf : WF p) (m : Move)
    (h : m ∈ p.generatePawnMoves) :
    (if p.side = 0 then p.wOcc else p.bOcc).testBit m.to' = false := by
  have hfr_of_all : ∀ b, p.allOcc.testBit b = false →
      (if p.side = 0 then p.wOcc else p.bOcc).testBit b = false := by
    intro b hb
    rw [hwf.aocc, Nat.testBit_or] at hb
    rcases Bool.or_eq_false_iff.mp hb with ⟨h1, h2⟩
    by_cases hs : p.side = 0 <;> simp [hs, h1, h2]
  have hfr_of_enemy : ∀ b,
      (if p.side = 0 then p.bOcc else p.wOcc).testBit b = true →
      (if p.side = 0 then p.wOcc else p.bOcc).testBit b = false := by
    intro b hb
    by_cases hs : p.side = 0
    · rw [if_pos hs] at hb
      rw [if_pos hs]
      cases hw : p.wOcc.testBit b
      · rfl
      · exact absurd ⟨hw, hb⟩ (hwf.occ_disjoint b)
    · rw [if_neg hs] at hb
      rw [if_neg hs]
      cases hwb : p.bOcc.testBit b
      · rfl
      · exact absurd ⟨hb, hwb⟩ (hwf.occ_disjoint b)
  unfold Position.generatePawnMoves at h
  obtain ⟨fro, _, h2⟩ := List.mem_flatMap.mp h
  dsimp only at h2
  set nr : Int := if p.side = 0 then ((fro / 8 : Nat) : Int) + 1
    else ((fro / 8 : Nat) : Int) - 1 with hnrdef
  by_cases hb : (decide (nr < 0) || decide (8 ≤ nr)) = true
  · rw [if_pos hb] at h2
    simp at h2
  · rw [if_neg hb] at h2
    rcases List.mem_append.mp h2 with hfc | hcR
    · rcases List.mem_append.mp hfc with hfwd | hcL
      · by_cases hall : p.allOcc.testBit ((nr * 8 + ((fro % 8 : Nat) : Int)).toNat) = true
        · rw [if_pos hall] at hfwd
          simp at hfwd
        · rw [if_neg hall] at hfwd
          simp only [Bool.not_eq_true] at hall
          by_cases hpr : (p.side = 0 ∧ nr = 7) ∨ (p.side ≠ 0 ∧ nr = 0)
          · rw [if_pos hpr] at hfwd
            simp only [List.mem_cons, List.not_mem_nil, or_false] at hfwd
            rcases hfwd with rfl | rfl | rfl | rfl <;> exact hfr_of_all _ hall
          · rw [if_neg hpr] at hfwd
            simp only [List.mem_singleton] at hfwd
            subst hfwd
            exact hfr_of_all _ hall
      · by_cases hfb : (0 : Int) ≤ ((fro % 8 : Nat) : Int) - 1
        · rw [if_pos hfb] at hcL
          by_cases hen : (if p.side = 0 then p.bOcc else p.wOcc).testBit
              ((nr * 8 + (((fro % 8 : Nat) : Int) - 1)).toNat) = true
          · rw [if_pos hen] at hcL
            by_cases hpr : (p.side = 0 ∧ nr = 7) ∨ (p.side ≠ 0 ∧ nr = 0)
            · rw [if_pos hpr] at hcL
              simp only [List.mem_cons, List.not_mem_nil, or_false] at hcL
              rcases hcL with rfl | rfl | rfl | rfl <;> exact hfr_of_enemy _ hen
            · rw [if_neg hpr] at hcL
              simp only [List.mem_singleton] at hcL
              subst hcL
              exact hfr_of_enemy _ hen
          · rw [if_neg hen] at hcL
            simp at hcL
        · rw [if_neg hfb] at hcL
          simp at hcL
    · by_cases hfb : ((fro % 8 : Nat) : Int) + 1 < 8
      · rw [if_pos hfb] at hcR
        by_cases hen : (if p.side = 0 then p.bOcc else p.wOcc).testBit
            ((nr * 8 + (((fro % 8 : Nat) : Int) + 1)).toNat) = true
        · rw [if_pos hen] at hcR
          by_cases hpr : (p.side = 0 ∧ nr = 7) ∨ (p.side ≠ 0 ∧ nr = 0)
          · rw [if_pos hpr] at hcR
            simp only [List.mem_cons, List.not_mem_nil, or_false] at hcR
            rcases hcR with rfl | rfl | rfl | rfl <;> exact hfr_of_enemy _ hen
          · rw [if_neg hpr] at hcR
            simp only [List.mem_singleton] at hcR
            subst hcR
            exact hfr_of_enemy _ hen
        · rw [if_neg hen] at hcR
          simp at hcR
      · rw [if_neg hfb] at hcR
        simp at hcR

/-- A generated move never lands on a square occupied by the mover's own
side. -/
theorem genMoves_not_friendly (p : Position) (hwf : WF p) (m : Move)
    (h : m ∈ p.genMoves) :
    (if p.side = 0 then p.wOcc else p.bOcc).testBit m.to' = false := by
  have hp : m ∈ p.pseudoMoves := List.mem_filter.mp h |>.1
  unfold Position.pseudoMoves at hp
  rcases List.mem_append.mp hp with hp | hpw
  · rcases List.mem_append.mp hp with hp | hkg
    · rcases List.mem_append.mp hp with hp | hkn
      · rcases List.mem_append.mp hp with hp | hq
        · rcases List.mem_append.mp hp with hbsh | hrk
          · exact generateSlidingMoves_not_friendly p 2 bishopDir m hbsh
          · exact generateSlidingMoves_not_friendly p 3 rookDir m hrk
        · exact generateSlidingMoves_not_friendly p 4 queenDir m hq
      · exact generateKnightMoves_not_friendly p m hkn
    · exact generateKingMoves_not_friendly p m hkg
  · exact generatePawnMoves_not_friendly p hwf m hpw

-- ---------------------------------------------------------------------------
-- Invariant preservation through makeMove
-- ---------------------------------------------------------------------------

/-- Setting the destination bit on one plane of a 12-plane list that (a)
only lost bits relative to an invariant-satisfying position and (b) is
everywhere free at the destination, yields an invariant-satisfying
position (with recomputed occupancies and any side value). -/
theorem WF_of_update (p : Position) (hwf : WF p) (t sq : Nat)
    (pcs2 : List Nat) (s : Int) (hlen2 : pcs2.length = 12)
    (hmono : ∀ k b, (pcs2.getD k 0).testBit b = true →
      (p.pieces.getD k 0).testBit b = true)
    (hT : ∀ k, k < 12 → (pcs2.getD k 0).testBit sq = false)
    (ht12 : t < 12) :
    WF { pieces := pcs2.set t (setBit (pcs2.getD t 0) sq),
         wOcc := wOccOf (pcs2.set t (setBit (pcs2.getD t 0) sq)),
         bOcc := bOccOf (pcs2.set t (setBit (pcs2.getD t 0) sq)),
         allOcc := wOccOf (pcs2.set t (setBit (pcs2.getD t 0) sq)) |||
           bOccOf (pcs2.set t (setBit (pcs2.getD t 0) sq)),
         side := s } := by
  have hget : ∀ k, (pcs2.set t (setBit (pcs2.getD t 0) sq)).getD k 0 =
      if k = t then setBit (pcs2.getD t 0) sq else pcs2.getD k 0 :=
    fun k => getD_set_cases _ _ _ _ k (by omega)
  refine ⟨by simp [List.length_set, hlen2], ?_, rfl, rfl, rfl⟩
  intro i j b hij hj hboth
  obtain ⟨hbi, hbj⟩ := hboth
  simp only [hget] at hbi hbj
  by_cases hit : i = t
  · have hjt : ¬(j = t) := by omega
    rw [if_pos hit] at hbi
    rw [if_neg hjt] at hbj
    rw [testBit_setBit] at hbi
    rcases Bool.or_eq_true_iff.mp hbi with hbi | hbi
    · exact hwf.disj i j b hij hj ⟨hmono i b (hit ▸ hbi), hmono j b hbj⟩
    · have hbto : b = sq := of_decide_eq_true hbi
      subst hbto
      rw [hT j hj] at hbj
      exact Bool.noConfusion hbj
  · by_cases hjt : j = t
    · rw [if_neg hit] at hbi
      rw [if_pos hjt] at hbj
      rw [testBit_setBit] at hbj
      rcases Bool.or_eq_true_iff.mp hbj with hbj | hbj
      · exact hwf.disj i j b hij hj ⟨hmono i b hbi, hmono j b (hjt ▸ hbj)⟩
      · have hbto : b = sq := of_decide_eq_true hbj
        subst hbto
        rw [hT i (by omega)] at hbi
        exact Bool.noConfusion hbi
    · rw [if_neg hit] at hbi
      rw [if_neg hjt] at hbj
      exact hwf.disj i j b hij hj ⟨hmono i b hbi, hmono j b hbj⟩

/-- makeMove preserves the representation invariant for any move whose
destination square is not occupied by the mover's own side (every
generated move qualifies). -/
theorem WF_makeMove (p : Position) (m : Move) (hwf : WF p)
    (hfree : (if p.side = 0 then p.wOcc else p.bOcc).testBit m.to' = false) :
    WF (p.makeMove m) := by
  have hfreeplane : ∀ k, (if p.side = 0 then 0 else 6) ≤ k →
      k < (if p.side = 0 then 0 else 6) + 6 →
      (p.pieces.getD k 0).testBit m.to' = false := by
    intro k hk1 hk2
    cases hkb : (p.pieces.getD k 0).testBit m.to'
    · rfl
    · exact absurd (hwf.plane_le_friendly k m.to' hk1 hk2 hkb) (by simp [hfree])
  have hdisj2 : ∀ a c b, a ≠ c → a < 12 → c < 12 →
      ¬((p.pieces.getD a 0).testBit b = true ∧ (p.pieces.getD c 0).testBit b = true) := by
    intro a c b hne ha hc hboth
    rcases Nat.lt_or_ge a c with h | h
    · exact hwf.disj a c b h hc hboth
    · exact hwf.disj c a b (by omega) ha ⟨hboth.2, hboth.1⟩
  simp only [Position.makeMove]
  cases hfind : (List.range 6).find?
      (fun i => (p.pieces.getD ((if p.side = 0 then 0 else 6) + i) 0).testBit m.from') with
  | none => simpa [hfind] using hwf
  | some i =>
    simp only [hfind]
    set o : Nat := if p.side = 0 then 0 else 6 with ho
    set e : Nat := if p.side = 0 then 6 else 0 with he
    have hoe : (o = 0 ∧ e = 6) ∨ (o = 6 ∧ e = 0) := by
      by_cases hs : p.side = 0
      · left; constructor <;> simp [ho, he, hs]
      · right; constructor <;> simp [ho, he, hs]
    have hi6 : i < 6 := by
      have := List.mem_of_find?_eq_some hfind
      simpa [List.mem_range] using this
    set pcs1 : List Nat := p.pieces.set (o + i) (clearBit (p.pieces.getD (o + i) 0) m.from')
      with hpcs1
    have hlen1 : pcs1.length = 12 := by rw [hpcs1, List.length_set, hwf.len]
    have hget1 : ∀ k, pcs1.getD k 0 =
        if k = o + i then clearBit (p.pieces.getD (o + i) 0) m.from'
        else p.pieces.getD k 0 := by
      intro k
      rw [hpcs1]
      exact getD_set_cases _ _ _ _ k (by rw [hwf.len]; rcases hoe with ⟨h1, _⟩ | ⟨h1, _⟩ <;> omega)
    have hmono1 : ∀ k b, (pcs1.getD k 0).testBit b = true →
        (p.pieces.getD k 0).testBit b = true := by
      intro k b hb
      rw [hget1 k] at hb
      by_cases hk : k = o + i
      · rw [if_pos hk, testBit_clearBit] at hb
        rw [hk]
        exact (Bool.and_eq_true_iff.mp hb).1
      · rwa [if_neg hk] at hb
    have hfree1 : ∀ k, o ≤ k → k < o + 6 → (pcs1.getD k 0).testBit m.to' = false := by
      intro k hk1 hk2
      cases hkb : (pcs1.getD k 0).testBit m.to'
      · rfl
      · have h1 := hmono1 k m.to' hkb
        rw [hfreeplane k hk1 hk2] at h1
        exact Bool.noConfusion h1
    have hsplit : ∀ k, k < 12 → (o ≤ k ∧ k < o + 6) ∨ (e ≤ k ∧ k < e + 6) := by
      intro k hk
      rcases hoe with ⟨h1, h2⟩ | ⟨h1, h2⟩ <;> omega
    cases hcap : (List.range 6).find? (fun j => (pcs1.getD (e + j) 0).testBit m.to') with
    | none =>
      simp only [hcap]
      have hT : ∀ k, k < 12 → (pcs1.getD k 0).testBit m.to' = false := by
        intro k hk
        rcases hsplit k hk with ⟨hk1, hk2⟩ | ⟨hk1, hk2⟩
        · exact hfree1 k hk1 hk2
        · have hmem := List.find?_eq_none.mp hcap (k - e) (by simp [List.mem_range]; omega)
          have heq : e + (k - e) = k := by omega
          rw [heq] at hmem
          simpa using hmem
      exact WF_of_update p hwf _ m.to' pcs1 (1 - p.side) hlen1 hmono1 hT
        (by split
            · split <;> split <;> omega
            · rcases hoe with ⟨h1, _⟩ | ⟨h1, _⟩ <;> omega)
    | some j =>
      simp only [hcap]
      have hj6 : j < 6 := by
        have := List.mem_of_find?_eq_some hcap
        simpa [List.mem_range] using this
      have hjpred : (pcs1.getD (e + j) 0).testBit m.to' = true := by
        have := List.find?_some hcap
        simpa using this
      have hlen2 : (pcs1.set (e + j) (clearBit (pcs1.getD (e + j) 0) m.to')).length = 12 := by
        rw [List.length_set, hlen1]
      have hget2 : ∀ k, (pcs1.set (e + j) (clearBit (pcs1.getD (e + j) 0) m.to')).getD k 0 =
          if k = e + j then clearBit (pcs1.getD (e + j) 0) m.to'
          else pcs1.getD k 0 := by
        intro k
        exact getD_set_cases _ _ _ _ k
          (by rw [hlen1]; rcases hoe with ⟨_, h2⟩ | ⟨_, h2⟩ <;> omega)
      have hmono2 : ∀ k b,
          ((pcs1.set (e + j) (clearBit (pcs1.getD (e + j) 0) m.to')).getD k 0).testBit b = true →
          (p.pieces.getD k 0).testBit b = true := by
        intro k b hb
        rw [hget2 k] at hb
        by_cases hk : k = e + j
        · rw [if_pos hk, testBit_clearBit] at hb
          rw [hk]
          exact hmono1 _ _ (Bool.and_eq_true_iff.mp hb).1
        · rw [if_neg hk] at hb
          exact hmono1 _ _ hb
      have hT : ∀ k, k < 12 →
          ((pcs1.set (e + j) (clearBit (pcs1.getD (e + j) 0) m.to')).getD k 0).testBit m.to'
            = false := by
        intro k hk
        rw [hget2 k]
        by_cases hke : k = e + j
        · rw [if_pos hke, testBit_clearBit]
          simp
        · rw [if_neg hke]
          rcases hsplit k hk with ⟨hk1, hk2⟩ | ⟨hk1, hk2⟩
          · exact hfree1 k hk1 hk2
          · cases hkb : (pcs1.getD k 0).testBit m.to'
            · rfl
            · exfalso
              have hkoi : ¬(k = o + i) := by
                rcases hoe with ⟨h1, h2⟩ | ⟨h1, h2⟩ <;> omega
              have hejoi : ¬(e + j = o + i) := by
                rcases hoe with ⟨h1, h2⟩ | ⟨h1, h2⟩ <;> omega
              have hkold : (p.pieces.getD k 0).testBit m.to' = true := by
                have := hkb
                rw [hget1 k, if_neg hkoi] at this
                exact this
              have hejold : (p.pieces.getD (e + j) 0).testBit m.to' = true := by
                have := hjpred
                rw [hget1 (e + j), if_neg hejoi] at this
                exact this
              exact hdisj2 k (e + j) m.to' hke hk
                (by rcases hoe with ⟨_, h2⟩ | ⟨_, h2⟩ <;> omega) ⟨hkold, hejold⟩
      exact WF_of_update p hwf _ m.to' _ (1 - p.side) hlen2 hmono2 hT
        (by split
            · split <;> split <;> omega
            · rcases hoe with ⟨h1, _⟩ | ⟨h1, _⟩ <;> omega)

/-- The start position satisfies the representation invariant. -/
theorem WF_start : WF Position.create_start_position := by
  refine ⟨by decide, ?_, rfl, rfl, rfl⟩
  intro i j b hij hj hboth
  have hl : ∀ j, j < 12 → ∀ i, i < j →
      startPieces.getD i 0 &&& startPieces.getD j 0 = 0 := by decide
  exact (land_eq_zero_iff.mp (hl j hj i hij)) b hboth

/-- Every reachable position satisfies the representation invariant. -/
theorem WF_reachable (p : Position) (h : Reachable p) : WF p := by
  induction h with
  | start => exact WF_start
  | step q m hq hm ih => exact WF_makeMove q m ih (genMoves_not_friendly q ih m hm)

-- ---------------------------------------------------------------------------
-- Claim C8: occupancy popcounts add up and planes stay disjoint
-- ---------------------------------------------------------------------------

/-- C8: on every position reachable from the start position by generated
moves, the white and black occupancy popcounts sum to the all-occupancy
popcount, and no two of the 12 piece planes share a set bit. -/
theorem c8_reachable_invariants (p : Position) (h : Reachable p) :
    popcount p.wOcc + popcount p.bOcc = popcount p.allOcc ∧
      ∀ i j, i < j → j < 12 → p.pieces.getD i 0 &&& p.pieces.getD j 0 = 0 := by
  have hwf := WF_reachable p h
  constructor
  · have hdisj : p.wOcc &&& p.bOcc = 0 :=
      land_eq_zero_iff.mpr (fun b => hwf.occ_disjoint b)
    rw [hwf.aocc, popcount_lor_of_disjoint hdisj]
  · intro i j hij hj
    exact land_eq_zero_iff.mpr (fun b => hwf.disj i j b hij hj)

/-- C8 witness: the invariants hold at the start position itself. -/
theorem c8_reachable_invariants_witness :
    Reachable Position.create_start_position ∧
      (popcount Position.create_start_position.wOcc +
          popcount Position.create_start_position.bOcc =
            popcount Position.create_start_position.allOcc ∧
        ∀ i j, i < j → j < 12 →
          Position.create_start_position.pieces.getD i 0 &&&
            Position.create_start_position.pieces.getD j 0 = 0) :=
  ⟨Reachable.start, c8_reachable_invariants _ Reachable.start⟩
